import Mathlib

/-!
Verification of the GeoSpatialTools spatial-indexing library.

The development shallowly embeds the Python sources: coordinates (degrees of
longitude and latitude) and datetimes (the spec allows any orderable scalar)
are modelled as rationals, Python float modulo is modelled as the exact
rational operation with the sign of the divisor, and the fallible dataclass
constructors are modelled as Except-valued functions.  The only module of the
repository whose source file is absent (GeoSpatialTools.distance_metrics,
holding the haversine and destination functions) is modelled from the spec;
everything else is a direct translation of the code.
-/

namespace GeoSpatialTools

/-- Python modulo for rationals: the result carries the sign of the divisor,
    x % 360 = x - 360 * floor (x / 360). -/
def pymod (a b : ℚ) : ℚ := a - b * ⌊a / b⌋

/-- The longitude wrap used throughout the sources: ((x + 540) % 360) - 180. -/
def wrap360 (x : ℚ) : ℚ := pymod (x + 540) 360 - 180

/-- The conditional canonicalization applied by the Rectangle constructors:
    wrap only when the value lies outside [-180, 180]. -/
def canonLon (x : ℚ) : ℚ := if x > 180 ∨ x < -180 then wrap360 x else x

theorem wrap360_mem (x : ℚ) : -180 ≤ wrap360 x ∧ wrap360 x < 180 := by
  unfold wrap360 pymod
  have h360 : (0:ℚ) < 360 := by norm_num
  have h1 := (le_div_iff₀ h360).mp (Int.floor_le ((x + 540) / 360))
  have h2 : (x + 540) / 360 < (⌊(x + 540) / 360⌋ : ℚ) + 1 := by
    have := Int.sub_one_lt_floor ((x + 540) / 360)
    linarith
  have h2' := (div_lt_iff₀ h360).mp h2
  exact ⟨by linarith, by linarith⟩

theorem wrap360_eq_self {x : ℚ} (h1 : -180 ≤ x) (h2 : x < 180) : wrap360 x = x := by
  unfold wrap360 pymod
  have hf : ⌊(x + 540) / 360⌋ = 1 := by
    apply Int.floor_eq_iff.mpr
    refine ⟨?_, ?_⟩
    · push_cast
      rw [le_div_iff₀ (by norm_num : (0:ℚ) < 360)]
      linarith
    · push_cast
      rw [div_lt_iff₀ (by norm_num : (0:ℚ) < 360)]
      linarith
  rw [hf]
  push_cast
  ring

theorem canonLon_mem (x : ℚ) : -180 ≤ canonLon x ∧ canonLon x ≤ 180 := by
  unfold canonLon
  split
  · have h := wrap360_mem x
    exact ⟨h.1, le_of_lt h.2⟩
  · rename_i h
    push_neg at h
    exact ⟨h.2, h.1⟩

/-- A record as in quadtree.py / kdtree.py: position, optional datetime,
    optional uid.  The open attribute bag carries no semantics and is not
    modelled.  Longitude canonicalization is done by the constructor mkRecord,
    not by the structure. -/
structure Rec where
  lon : ℚ
  lat : ℚ
  datetime : Option ℚ
  uid : Option String
deriving DecidableEq, Repr

/-- Python truthiness of the optional uid string: None and the empty string
    are falsy. -/
def uidTruthy : Option String → Bool
  | none => false
  | some s => s ≠ ""

/-- Record.__eq__ from quadtree.py: compare by uid when both records have a
    truthy uid, otherwise by the (lon, lat, datetime) triple together with the
    uid agreement clause. -/
def recEqv (a b : Rec) : Prop :=
  if uidTruthy a.uid && uidTruthy b.uid then a.uid = b.uid
  else
    a.lon = b.lon ∧ a.lat = b.lat ∧ a.datetime = b.datetime ∧
      ((uidTruthy a.uid || uidTruthy b.uid) = false ∨ a.uid = b.uid)

instance (a b : Rec) : Decidable (recEqv a b) := by unfold recEqv; infer_instance

/-- Membership of a record in a Python list, tested with Record.__eq__
    (models the `in` operator used by the trees). -/
def inPts (p : Rec) : List Rec → Prop
  | [] => False
  | x :: xs => recEqv x p ∨ inPts p xs

instance (p : Rec) : (l : List Rec) → Decidable (inPts p l)
  | [] => by unfold inPts; infer_instance
  | _ :: xs =>
    haveI := fun q => instDecidableInPts q xs
    by unfold inPts; infer_instance

/-- Error raised on out-of-range latitudes (utils.LatitudeError). -/
inductive GeoError where
  | latitudeError
deriving DecidableEq, Repr

/-- Record.__init__ with fix_lon = True: wrap the longitude unconditionally,
    raise LatitudeError when the latitude is outside [-90, 90]. -/
def mkRecord (lon lat : ℚ) (datetime : Option ℚ) (uid : Option String) :
    Except GeoError Rec :=
  if lat < -90 ∨ lat > 90 then .error .latitudeError
  else .ok { lon := wrap360 lon, lat := lat, datetime := datetime, uid := uid }

/-- The Rectangle dataclass of shape.py / quadtree.py (fields after
    __post_init__ canonicalization). -/
structure Rect where
  west : ℚ
  east : ℚ
  south : ℚ
  north : ℚ
deriving DecidableEq, Repr

namespace Rect

/-- Rectangle.__post_init__: conditional canonicalization of west and east,
    LatitudeError when north > 90 or south < -90. -/
def make (west east south north : ℚ) : Except GeoError Rect :=
  if north > 90 ∨ south < -90 then .error .latitudeError
  else .ok ⟨canonLon west, canonLon east, south, north⟩

/-- Rectangle construction that skips the latitude check; used for the child
    boundaries built by divide, whose latitudes are inherited from an already
    validated parent so the LatitudeError branch cannot fire. -/
def makeUnchecked (west east south north : ℚ) : Rect :=
  ⟨canonLon west, canonLon east, south, north⟩

/-- Rectangle.lon_range. -/
def lonRange (r : Rect) : ℚ :=
  if r.east < r.west then r.east - r.west + 360 else r.east - r.west

/-- Rectangle.lon: centre longitude, wrapped unconditionally. -/
def centreLon (r : Rect) : ℚ := wrap360 (r.west + r.lonRange / 2)

/-- Rectangle.lat_range. -/
def latRange (r : Rect) : ℚ := r.north - r.south

/-- Rectangle.lat: centre latitude. -/
def centreLat (r : Rect) : ℚ := r.south + r.latRange / 2

end Rect

/-- The body of Rectangle._test_east_west, abstracted over the precomputed
    centre longitude c and longitude range lr so that the same case analysis
    serves Rectangle and SpaceTimeRectangle. -/
def tewCore (w e c lr x : ℚ) : Prop :=
  if 360 ≤ lr then True
  else if c < e ∧ w < c then x ≤ e ∧ w ≤ x
  else if e < c then ¬(e < x ∧ x < w)
  else if c < w then ¬(x < e ∧ w < x)
  else False

instance (w e c lr x : ℚ) : Decidable (tewCore w e c lr x) := by
  unfold tewCore; infer_instance

theorem tewCore_intro360 {w e c l x : ℚ} (h : 360 ≤ l) : tewCore w e c l x := by
  unfold tewCore; rw [if_pos h]; trivial

theorem tewCore_introA {w e c l x : ℚ} (g1 : ¬360 ≤ l) (g2 : c < e ∧ w < c)
    (hx : x ≤ e ∧ w ≤ x) : tewCore w e c l x := by
  unfold tewCore; rw [if_neg g1, if_pos g2]; exact hx

theorem tewCore_introB {w e c l x : ℚ} (g1 : ¬360 ≤ l) (g2 : ¬(c < e ∧ w < c))
    (g3 : e < c) (hx : x ≤ e ∨ w ≤ x) : tewCore w e c l x := by
  unfold tewCore; rw [if_neg g1, if_neg g2, if_pos g3]
  rintro ⟨a, b⟩; rcases hx with h | h <;> linarith

theorem tewCore_introC {w e c l x : ℚ} (g1 : ¬360 ≤ l) (g2 : ¬(c < e ∧ w < c))
    (g3 : ¬e < c) (g4 : c < w) (hx : e ≤ x ∨ x ≤ w) : tewCore w e c l x := by
  unfold tewCore; rw [if_neg g1, if_neg g2, if_neg g3, if_pos g4]
  rintro ⟨a, b⟩; rcases hx with h | h <;> linarith

theorem tewCore_cases {w e c l x : ℚ} (h : tewCore w e c l x) :
    360 ≤ l ∨
    (¬360 ≤ l ∧ (c < e ∧ w < c) ∧ (x ≤ e ∧ w ≤ x)) ∨
    (¬360 ≤ l ∧ ¬(c < e ∧ w < c) ∧ e < c ∧ (x ≤ e ∨ w ≤ x)) ∨
    (¬360 ≤ l ∧ ¬(c < e ∧ w < c) ∧ ¬e < c ∧ c < w ∧ (e ≤ x ∨ x ≤ w)) := by
  unfold tewCore at h
  split_ifs at h with g1 g2 g3 g4
  · exact Or.inl g1
  · exact Or.inr (Or.inl ⟨g1, g2, h⟩)
  · refine Or.inr (Or.inr (Or.inl ⟨g1, g2, g3, ?_⟩))
    rw [not_and_or, not_lt, not_lt] at h
    exact h
  · refine Or.inr (Or.inr (Or.inr ⟨g1, g2, g3, g4, ?_⟩))
    rw [not_and_or, not_lt, not_lt] at h
    exact h

/-- If a longitude x passes the east-west test of two rectangles, then the two
    rectangles pass the longitude part of the intersection test. -/
theorem tewCore_overlap {w1 e1 c1 l1 w2 e2 c2 l2 x : ℚ}
    (h1 : tewCore w1 e1 c1 l1 x) (h2 : tewCore w2 e2 c2 l2 x) :
    tewCore w1 e1 c1 l1 w2 ∨ tewCore w1 e1 c1 l1 e2 ∨
      (tewCore w2 e2 c2 l2 w1 ∧ tewCore w2 e2 c2 l2 e1) := by
  rcases tewCore_cases h1 with hb | ⟨b1, b2, bx1, bx2⟩ | ⟨b1, b2, b3, bx⟩ | ⟨b1, b2, b3, b4, bx⟩
  · exact Or.inl (tewCore_intro360 hb)
  all_goals
    rcases tewCore_cases h2 with hq | ⟨q1, q2, qx1, qx2⟩ | ⟨q1, q2, q3, qx⟩ | ⟨q1, q2, q3, q4, qx⟩
  -- b branch A
  · exact Or.inr (Or.inr ⟨tewCore_intro360 hq, tewCore_intro360 hq⟩)
  · -- A-A
    rcases le_or_lt w1 w2 with p | p
    · exact Or.inl (tewCore_introA b1 b2 ⟨by linarith, p⟩)
    rcases le_or_lt e2 e1 with q | q
    · exact Or.inr (Or.inl (tewCore_introA b1 b2 ⟨q, by linarith⟩))
    exact Or.inr (Or.inr ⟨tewCore_introA q1 q2 ⟨by linarith, le_of_lt p⟩,
      tewCore_introA q1 q2 ⟨le_of_lt q, by linarith⟩⟩)
  · -- A-B
    rcases qx with hq | hq
    · rcases le_or_lt e2 e1 with p | p
      · exact Or.inr (Or.inl (tewCore_introA b1 b2 ⟨p, by linarith⟩))
      · exact Or.inr (Or.inr ⟨tewCore_introB q1 q2 q3 (Or.inl (by linarith)),
          tewCore_introB q1 q2 q3 (Or.inl (le_of_lt p))⟩)
    · rcases le_or_lt w1 w2 with p | p
      · exact Or.inl (tewCore_introA b1 b2 ⟨by linarith, p⟩)
      · exact Or.inr (Or.inr ⟨tewCore_introB q1 q2 q3 (Or.inr (le_of_lt p)),
          tewCore_introB q1 q2 q3 (Or.inr (by linarith))⟩)
  · -- A-C
    rcases qx with hq | hq
    · rcases le_or_lt w1 e2 with p | p
      · exact Or.inr (Or.inl (tewCore_introA b1 b2 ⟨by linarith, p⟩))
      · exact Or.inr (Or.inr ⟨tewCore_introC q1 q2 q3 q4 (Or.inl (le_of_lt p)),
          tewCore_introC q1 q2 q3 q4 (Or.inl (by linarith))⟩)
    · rcases le_or_lt w2 e1 with p | p
      · exact Or.inl (tewCore_introA b1 b2 ⟨p, by linarith⟩)
      · exact Or.inr (Or.inr ⟨tewCore_introC q1 q2 q3 q4 (Or.inr (by linarith)),
          tewCore_introC q1 q2 q3 q4 (Or.inr (le_of_lt p))⟩)
  -- b branch B
  · exact Or.inr (Or.inr ⟨tewCore_intro360 hq, tewCore_intro360 hq⟩)
  · -- B-A
    rcases le_or_lt w2 e1 with p1 | p1
    · exact Or.inl (tewCore_introB b1 b2 b3 (Or.inl p1))
    rcases le_or_lt w1 w2 with p2 | p2
    · exact Or.inl (tewCore_introB b1 b2 b3 (Or.inr p2))
    have hx : w1 ≤ x := by
      rcases bx with h | h
      · linarith
      · exact h
    exact Or.inr (Or.inl (tewCore_introB b1 b2 b3 (Or.inr (by linarith))))
  · -- B-B
    rcases le_or_lt w2 e1 with p1 | p1
    · exact Or.inl (tewCore_introB b1 b2 b3 (Or.inl p1))
    rcases le_or_lt w1 w2 with p2 | p2
    · exact Or.inl (tewCore_introB b1 b2 b3 (Or.inr p2))
    rcases le_or_lt e2 e1 with p3 | p3
    · exact Or.inr (Or.inl (tewCore_introB b1 b2 b3 (Or.inl p3)))
    rcases le_or_lt w1 e2 with p4 | p4
    · exact Or.inr (Or.inl (tewCore_introB b1 b2 b3 (Or.inr p4)))
    exact Or.inr (Or.inr ⟨tewCore_introB q1 q2 q3 (Or.inr (le_of_lt p2)),
      tewCore_introB q1 q2 q3 (Or.inl (le_of_lt p3))⟩)
  · -- B-C
    rcases le_or_lt w2 e1 with p1 | p1
    · exact Or.inl (tewCore_introB b1 b2 b3 (Or.inl p1))
    rcases le_or_lt w1 w2 with p2 | p2
    · exact Or.inl (tewCore_introB b1 b2 b3 (Or.inr p2))
    rcases le_or_lt e2 e1 with p3 | p3
    · exact Or.inr (Or.inl (tewCore_introB b1 b2 b3 (Or.inl p3)))
    rcases le_or_lt w1 e2 with p4 | p4
    · exact Or.inr (Or.inl (tewCore_introB b1 b2 b3 (Or.inr p4)))
    exact Or.inr (Or.inr ⟨tewCore_introC q1 q2 q3 q4 (Or.inl (le_of_lt p4)),
      tewCore_introC q1 q2 q3 q4 (Or.inr (le_of_lt p1))⟩)
  -- b branch C
  · exact Or.inr (Or.inr ⟨tewCore_intro360 hq, tewCore_intro360 hq⟩)
  · -- C-A
    rcases le_or_lt e1 w2 with p1 | p1
    · exact Or.inl (tewCore_introC b1 b2 b3 b4 (Or.inl p1))
    rcases le_or_lt w2 w1 with p2 | p2
    · exact Or.inl (tewCore_introC b1 b2 b3 b4 (Or.inr p2))
    have hx : e1 ≤ x := by
      rcases bx with h | h
      · exact h
      · linarith
    exact Or.inr (Or.inl (tewCore_introC b1 b2 b3 b4 (Or.inl (by linarith))))
  · -- C-B
    rcases le_or_lt e1 w2 with p1 | p1
    · exact Or.inl (tewCore_introC b1 b2 b3 b4 (Or.inl p1))
    rcases le_or_lt w2 w1 with p2 | p2
    · exact Or.inl (tewCore_introC b1 b2 b3 b4 (Or.inr p2))
    rcases le_or_lt e1 e2 with p3 | p3
    · exact Or.inr (Or.inl (tewCore_introC b1 b2 b3 b4 (Or.inl p3)))
    rcases le_or_lt e2 w1 with p4 | p4
    · exact Or.inr (Or.inl (tewCore_introC b1 b2 b3 b4 (Or.inr p4)))
    exact Or.inr (Or.inr ⟨tewCore_introB q1 q2 q3 (Or.inl (le_of_lt p4)),
      tewCore_introB q1 q2 q3 (Or.inr (le_of_lt p1))⟩)
  · -- C-C
    rcases le_or_lt e1 w2 with p1 | p1
    · exact Or.inl (tewCore_introC b1 b2 b3 b4 (Or.inl p1))
    rcases le_or_lt w2 w1 with p2 | p2
    · exact Or.inl (tewCore_introC b1 b2 b3 b4 (Or.inr p2))
    rcases le_or_lt e1 e2 with p3 | p3
    · exact Or.inr (Or.inl (tewCore_introC b1 b2 b3 b4 (Or.inl p3)))
    rcases le_or_lt e2 w1 with p4 | p4
    · exact Or.inr (Or.inl (tewCore_introC b1 b2 b3 b4 (Or.inr p4)))
    exact Or.inr (Or.inr ⟨tewCore_introC q1 q2 q3 q4 (Or.inr (le_of_lt p2)),
      tewCore_introC q1 q2 q3 q4 (Or.inl (le_of_lt p3))⟩)

namespace Rect

/-- Rectangle._test_east_west. -/
def tew (r : Rect) (x : ℚ) : Prop := tewCore r.west r.east r.centreLon r.lonRange x

instance (r : Rect) (x : ℚ) : Decidable (r.tew x) := by unfold tew; infer_instance

/-- Rectangle._test_north_south. -/
def tns (r : Rect) (x : ℚ) : Prop := x ≤ r.north ∧ r.south ≤ x

instance (r : Rect) (x : ℚ) : Decidable (r.tns x) := by unfold tns; infer_instance

/-- Rectangle.contains. -/
def contains (r : Rect) (p : Rec) : Prop := r.tns p.lat ∧ r.tew p.lon

instance (r : Rect) (p : Rec) : Decidable (r.contains p) := by
  unfold contains; infer_instance

/-- Rectangle.intersects (the TypeError branch for non-Rectangle arguments is
    outside the embedded domain). -/
def intersects (r other : Rect) : Prop :=
  if other.south > r.north then False
  else if other.north < r.south then False
  else
    r.tew other.west ∨ r.tew other.east ∨ (other.tew r.west ∧ other.tew r.east)

instance (r other : Rect) : Decidable (r.intersects other) := by
  unfold intersects; infer_instance

end Rect

-- Sanity checks of the embedding against the repository test suite
-- (test_quadtree.py, class TestRect).
example : Rect.make 0 20 0 10 = .ok ⟨0, 20, 0, 10⟩ := by norm_num [Rect.make, canonLon]
example : (⟨0, 20, 0, 10⟩ : Rect).contains ⟨10, 5, none, none⟩ := by
  norm_num [Rect.contains, Rect.tns, Rect.tew, tewCore, Rect.centreLon, Rect.lonRange,
    wrap360, pymod]
example : ¬ (⟨0, 20, 0, 10⟩ : Rect).contains ⟨-2, -92/10, none, none⟩ := by
  norm_num [Rect.contains, Rect.tns, Rect.tew, tewCore, Rect.centreLon, Rect.lonRange,
    wrap360, pymod]
example : Rect.make 80 (-100) 35 55 = .ok ⟨80, -100, 35, 55⟩ := by norm_num [Rect.make, canonLon]
example : (⟨80, -100, 35, 55⟩ : Rect).centreLon = 170 := by
  norm_num [Rect.centreLon, Rect.lonRange, wrap360, pymod]
example : (⟨80, -100, 35, 55⟩ : Rect).contains ⟨-140, 40, none, none⟩ := by
  norm_num [Rect.contains, Rect.tns, Rect.tew, tewCore, Rect.centreLon, Rect.lonRange,
    wrap360, pymod]
example : ¬ (⟨80, -100, 35, 55⟩ : Rect).contains ⟨0, 50, none, none⟩ := by
  norm_num [Rect.contains, Rect.tns, Rect.tew, tewCore, Rect.centreLon, Rect.lonRange,
    wrap360, pymod]
example : (⟨0, 20, 0, 10⟩ : Rect).intersects ⟨1, 19, 1, 9⟩ := by
  norm_num [Rect.intersects, Rect.tew, tewCore, Rect.centreLon, Rect.lonRange, wrap360, pymod]
example : ¬ (⟨0, 20, 0, 10⟩ : Rect).intersects ⟨41/2, 59/2, -1, 11⟩ := by
  norm_num [Rect.intersects, Rect.tew, tewCore, Rect.centreLon, Rect.lonRange, wrap360, pymod]

/-- A record inside both a tree boundary and a query rectangle witnesses that
    the boundary passes the intersection test against the query: the
    rectangle-query pruning in QuadTree.query and OctTree.query never discards
    a subtree that stores a matching record. -/
theorem Rect.intersects_of_contains_both {b q : Rect} {p : Rec}
    (hb : b.contains p) (hq : q.contains p) : b.intersects q := by
  obtain ⟨⟨hbn, hbs⟩, hbe⟩ := hb
  obtain ⟨⟨hqn, hqs⟩, hqe⟩ := hq
  unfold intersects
  rw [if_neg (by push_neg; linarith), if_neg (by push_neg; linarith)]
  exact tewCore_overlap hbe hqe

/-- The QuadTree class: a node either has no children (divided = False) or
    exactly the four named children (divided = True). -/
inductive QTree where
  | leaf (boundary : Rect) (capacity depth : ℕ) (maxDepth : Option ℕ) (points : List Rec)
  | div (boundary : Rect) (capacity depth : ℕ) (maxDepth : Option ℕ) (points : List Rec)
      (nw ne sw se : QTree)
deriving DecidableEq

namespace QTree

def boundary : QTree → Rect
  | .leaf b _ _ _ _ => b
  | .div b _ _ _ _ _ _ _ _ => b

def capacity : QTree → ℕ
  | .leaf _ c _ _ _ => c
  | .div _ c _ _ _ _ _ _ _ => c

def depth : QTree → ℕ
  | .leaf _ _ d _ _ => d
  | .div _ _ d _ _ _ _ _ _ => d

def maxDepth : QTree → Option ℕ
  | .leaf _ _ _ m _ => m
  | .div _ _ _ m _ _ _ _ _ => m

def points : QTree → List Rec
  | .leaf _ _ _ _ pts => pts
  | .div _ _ _ _ pts _ _ _ _ => pts

/-- Append a record to the node list (self.points.append(point)). -/
def push (p : Rec) : QTree → QTree
  | .leaf b c d m pts => .leaf b c d m (pts ++ [p])
  | .div b c d m pts nw ne sw se => .div b c d m (pts ++ [p]) nw ne sw se

/-- The test `self.max_depth and self.depth == self.max_depth`: max_depth must
    be truthy (not None and nonzero) and equal to the current depth. -/
def atMaxDepth (t : QTree) : Prop :=
  match t.maxDepth with
  | none => False
  | some m => ¬m = 0 ∧ t.depth = m

instance (t : QTree) : Decidable t.atMaxDepth := by
  unfold atMaxDepth; exact match t.maxDepth with
    | none => by infer_instance
    | some m => by infer_instance

end QTree

namespace Rect

/-- Boundary of the northwest child built by QuadTree.divide (the Rectangle
    constructor wraps west and east conditionally; its latitude check cannot
    fire because the latitudes come from the parent). -/
def childNW (b : Rect) : Rect := makeUnchecked b.west b.centreLon b.centreLat b.north

/-- Boundary of the northeast child built by QuadTree.divide. -/
def childNE (b : Rect) : Rect := makeUnchecked b.centreLon b.east b.centreLat b.north

/-- Boundary of the southwest child built by QuadTree.divide. -/
def childSW (b : Rect) : Rect := makeUnchecked b.west b.centreLon b.south b.centreLat

/-- Boundary of the southeast child built by QuadTree.divide. -/
def childSE (b : Rect) : Rect := makeUnchecked b.centreLon b.east b.south b.centreLat

end Rect

namespace QTree

/-- The NW, NE, SW, SE insertion cascade of QuadTree.insert on a divided
    node, parameterized by the recursive insertion function.  A failed child
    insertion keeps the (possibly divided) child returned by the call, as the
    Python mutation does; later children are attempted only after earlier
    ones fail. -/
def insertInto (ins : QTree → Rec → QTree × Bool) (b : Rect) (c d : ℕ) (m : Option ℕ)
    (pts : List Rec) (nw ne sw se : QTree) (p : Rec) : QTree × Bool :=
  if (ins nw p).2 then (.div b c d m pts (ins nw p).1 ne sw se, true)
  else if (ins ne p).2 then (.div b c d m pts (ins nw p).1 (ins ne p).1 sw se, true)
  else if (ins sw p).2 then (.div b c d m pts (ins nw p).1 (ins ne p).1 (ins sw p).1 se, true)
  else if (ins se p).2 then
    (.div b c d m pts (ins nw p).1 (ins ne p).1 (ins sw p).1 (ins se p).1, true)
  else (.div b c d m pts (ins nw p).1 (ins ne p).1 (ins sw p).1 (ins se p).1, false)

/-- QuadTree.insert.  The recursion is paid for by an explicit fuel argument:
    the Python code recurses through freshly divided children, which is not
    structural, and diverges when capacity is 0 and no max_depth is set; any
    fuel at least the number of divisions performed gives the Python
    behaviour.  Returns the updated tree and the boolean result. -/
def insert : ℕ → QTree → Rec → QTree × Bool
  | 0, t, _ => (t, false)
  | fuel + 1, t, p =>
    if ¬ t.boundary.contains p then (t, false)
    else if t.atMaxDepth then (t.push p, true)
    else if t.points.length < t.capacity then (t.push p, true)
    else
      match t with
      | .leaf b c d m pts =>
        insertInto (insert fuel) b c d m pts (.leaf b.childNW c (d+1) m [])
          (.leaf b.childNE c (d+1) m []) (.leaf b.childSW c (d+1) m [])
          (.leaf b.childSE c (d+1) m []) p
      | .div b c d m pts nw ne sw se => insertInto (insert fuel) b c d m pts nw ne sw se p

/-- All records stored in the node and its descendants. -/
def stored : QTree → List Rec
  | .leaf _ _ _ _ pts => pts
  | .div _ _ _ _ pts nw ne sw se => pts ++ (nw.stored ++ (ne.stored ++ (sw.stored ++ se.stored)))

end QTree

/-- The for-loop of QuadTree.query: append to the accumulator the records of
    a node list satisfying rect.contains. -/
def collectContains (q : Rect) : List Rec → List Rec
  | [] => []
  | p :: ps => if q.contains p then p :: collectContains q ps else collectContains q ps

theorem mem_collectContains {q : Rect} {r : Rec} :
    ∀ {l : List Rec}, r ∈ collectContains q l ↔ r ∈ l ∧ q.contains r
  | [] => by simp [collectContains]
  | p :: ps => by
    unfold collectContains
    split
    · rename_i hc
      simp only [List.mem_cons, or_and_right]
      constructor
      · rintro (rfl | h)
        · exact Or.inl ⟨rfl, hc⟩
        · exact Or.inr (mem_collectContains.mp h)
      · rintro (⟨rfl, _⟩ | h)
        · exact Or.inl rfl
        · exact Or.inr (mem_collectContains.mpr h)
    · rename_i hc
      rw [mem_collectContains]
      simp only [List.mem_cons, or_and_right]
      constructor
      · exact Or.inr
      · rintro (⟨rfl, h⟩ | h)
        · exact absurd h hc
        · exact h

namespace QTree

/-- QuadTree.query with its accumulator argument (a None or empty accumulator
    is replaced by a fresh empty list, which the model renders as the empty
    list itself). -/
def query (rect : Rect) : QTree → List Rec → List Rec
  | .leaf b _ _ _ pts, acc =>
    if ¬ b.intersects rect then acc else acc ++ collectContains rect pts
  | .div b _ _ _ pts nw ne sw se, acc =>
    if ¬ b.intersects rect then acc
    else query rect se (query rect sw (query rect ne (query rect nw (acc ++ collectContains rect pts))))

/-- The tree invariant maintained by construction and insertion: every record
    stored in a node or below it is contained in the node boundary. -/
def wf : QTree → Prop
  | .leaf b _ _ _ pts => ∀ p ∈ pts, b.contains p
  | .div b c d m pts nw ne sw se =>
      (∀ p ∈ (QTree.div b c d m pts nw ne sw se).stored, b.contains p) ∧
        nw.wf ∧ ne.wf ∧ sw.wf ∧ se.wf

instance : (t : QTree) → Decidable t.wf
  | .leaf b _ _ _ pts => by unfold wf; infer_instance
  | .div b c d m pts nw ne sw se => by
    unfold wf
    haveI := instDecidableWf nw
    haveI := instDecidableWf ne
    haveI := instDecidableWf sw
    haveI := instDecidableWf se
    infer_instance

theorem stored_wf_contains : ∀ {t : QTree}, t.wf → ∀ p ∈ t.stored, t.boundary.contains p
  | .leaf _ _ _ _ _, hw => hw
  | .div _ _ _ _ _ _ _ _ _, hw => hw.1

/-- Membership characterization of QuadTree.query for well-formed trees: the
    accumulator is only extended, the pruning by boundary.intersects loses no
    matching record, and only matching stored records are added. -/
theorem mem_query {rect : Rect} {r : Rec} :
    ∀ {t : QTree}, t.wf → ∀ {acc : List Rec},
      (r ∈ t.query rect acc ↔ r ∈ acc ∨ (r ∈ t.stored ∧ rect.contains r))
  | .leaf b c d m pts, hw, acc => by
    unfold query
    split
    · rename_i hni
      simp only [stored, iff_self_or]
      rintro ⟨hmem, hcr⟩
      exact absurd (Rect.intersects_of_contains_both (hw r hmem) hcr) hni
    · rename_i hni
      rw [not_not] at hni
      simp only [List.mem_append, mem_collectContains, stored]
  | .div b c d m pts nw ne sw se, hw, acc => by
    obtain ⟨hall, hnw, hne, hsw, hse⟩ := hw
    unfold query
    split
    · rename_i hni
      simp only [stored, iff_self_or]
      rintro ⟨hmem, hcr⟩
      exact absurd (Rect.intersects_of_contains_both (hall r hmem) hcr) hni
    · rename_i hni
      rw [mem_query hse, mem_query hsw, mem_query hne, mem_query hnw]
      simp only [List.mem_append, mem_collectContains, stored]
      tauto

end QTree

namespace QTree

theorem mem_stored_push {t : QTree} {p r : Rec} :
    r ∈ (t.push p).stored ↔ r ∈ t.stored ∨ r = p := by
  cases t <;> simp [push, stored, or_assoc, or_left_comm, or_comm]

set_option maxHeartbeats 1000000 in
theorem mem_stored_insertInto {ins : QTree → Rec → QTree × Bool} {b : Rect} {c d : ℕ}
    {m : Option ℕ} {pts : List Rec} {nw ne sw se : QTree} {p r : Rec}
    (h1 : r ∈ (ins nw p).1.stored → r ∈ nw.stored ∨ r = p)
    (h2 : r ∈ (ins ne p).1.stored → r ∈ ne.stored ∨ r = p)
    (h3 : r ∈ (ins sw p).1.stored → r ∈ sw.stored ∨ r = p)
    (h4 : r ∈ (ins se p).1.stored → r ∈ se.stored ∨ r = p) :
    r ∈ (insertInto ins b c d m pts nw ne sw se p).1.stored →
      r ∈ (QTree.div b c d m pts nw ne sw se).stored ∨ r = p := by
  unfold insertInto
  split_ifs <;> intro hr <;>
    simp only [stored, List.mem_append] at hr ⊢ <;>
    rcases hr with h | h | h | h | h <;> tauto

theorem mem_stored_insert :
    ∀ {fuel : ℕ} {t : QTree} {p r : Rec}, r ∈ (insert fuel t p).1.stored → r ∈ t.stored ∨ r = p
  | 0, t, p, r => fun h => Or.inl h
  | fuel + 1, t, p, r => by
    unfold insert
    by_cases g1 : t.boundary.contains p
    · rw [if_neg (not_not_intro g1)]
      by_cases g2 : t.atMaxDepth
      · rw [if_pos g2]
        exact fun h => mem_stored_push.mp h
      · rw [if_neg g2]
        by_cases g3 : t.points.length < t.capacity
        · rw [if_pos g3]
          exact fun h => mem_stored_push.mp h
        · rw [if_neg g3]
          match t with
          | .leaf b c d m pts =>
            intro h
            rcases mem_stored_insertInto mem_stored_insert mem_stored_insert mem_stored_insert
              mem_stored_insert h with hmem | rfl
            · simp only [stored, List.mem_append, List.not_mem_nil, or_false] at hmem
              exact Or.inl hmem
            · exact Or.inr rfl
          | .div b c d m pts nw ne sw se =>
            exact mem_stored_insertInto mem_stored_insert mem_stored_insert mem_stored_insert
              mem_stored_insert
    · rw [if_pos g1]
      exact fun h => Or.inl h

theorem wf_push {t : QTree} {p : Rec} (hc : t.boundary.contains p) (hw : t.wf) :
    (t.push p).wf := by
  cases t with
  | leaf b c d m pts =>
    intro q hq
    rcases List.mem_append.mp hq with h | h
    · exact hw q h
    · rw [List.mem_singleton.mp h]
      exact hc
  | div b c d m pts nw ne sw se =>
    obtain ⟨hall, h1, h2, h3, h4⟩ := hw
    refine ⟨?_, h1, h2, h3, h4⟩
    intro q hq
    simp only [push, stored, List.mem_append, List.mem_singleton] at hq
    rcases hq with (h | rfl) | h
    · exact hall q (by simp [stored, List.mem_append, h])
    · exact hc
    · exact hall q (by simp [stored, List.mem_append]; tauto)

theorem wf_insertInto {ins : QTree → Rec → QTree × Bool} {b : Rect} {c d : ℕ}
    {m : Option ℕ} {pts : List Rec} {nw ne sw se : QTree} {p : Rec}
    (hc : b.contains p)
    (hpts : ∀ q ∈ pts, b.contains q)
    (ho1 : ∀ q ∈ nw.stored, b.contains q) (ho2 : ∀ q ∈ ne.stored, b.contains q)
    (ho3 : ∀ q ∈ sw.stored, b.contains q) (ho4 : ∀ q ∈ se.stored, b.contains q)
    (hb1 : ∀ q, q ∈ (ins nw p).1.stored → q ∈ nw.stored ∨ q = p)
    (hb2 : ∀ q, q ∈ (ins ne p).1.stored → q ∈ ne.stored ∨ q = p)
    (hb3 : ∀ q, q ∈ (ins sw p).1.stored → q ∈ sw.stored ∨ q = p)
    (hb4 : ∀ q, q ∈ (ins se p).1.stored → q ∈ se.stored ∨ q = p)
    (hw1 : nw.wf) (hw2 : ne.wf) (hw3 : sw.wf) (hw4 : se.wf)
    (hw1i : (ins nw p).1.wf) (hw2i : (ins ne p).1.wf)
    (hw3i : (ins sw p).1.wf) (hw4i : (ins se p).1.wf) :
    (insertInto ins b c d m pts nw ne sw se p).1.wf := by
  have hm1 : ∀ q ∈ (ins nw p).1.stored, b.contains q := by
    intro q hq
    rcases hb1 q hq with h | rfl
    · exact ho1 q h
    · exact hc
  have hm2 : ∀ q ∈ (ins ne p).1.stored, b.contains q := by
    intro q hq
    rcases hb2 q hq with h | rfl
    · exact ho2 q h
    · exact hc
  have hm3 : ∀ q ∈ (ins sw p).1.stored, b.contains q := by
    intro q hq
    rcases hb3 q hq with h | rfl
    · exact ho3 q h
    · exact hc
  have hm4 : ∀ q ∈ (ins se p).1.stored, b.contains q := by
    intro q hq
    rcases hb4 q hq with h | rfl
    · exact ho4 q h
    · exact hc
  unfold insertInto
  split_ifs <;>
    refine ⟨?_, ?_, ?_, ?_, ?_⟩ <;>
      first
        | exact hw1 | exact hw2 | exact hw3 | exact hw4
        | exact hw1i | exact hw2i | exact hw3i | exact hw4i
        | (intro q hq
           simp only [stored, List.mem_append] at hq
           rcases hq with h | h | h | h | h
           · exact hpts q h
           all_goals
             first
               | exact hm1 q h | exact hm2 q h | exact hm3 q h | exact hm4 q h
               | exact ho1 q h | exact ho2 q h | exact ho3 q h | exact ho4 q h)

/-- QuadTree.insert preserves the containment invariant. -/
theorem wf_insert : ∀ (fuel : ℕ) (t : QTree) (p : Rec), t.wf → ((insert fuel t p).1).wf
  | 0, _, _, hw => hw
  | fuel + 1, t, p, hw => by
    unfold insert
    by_cases g1 : t.boundary.contains p
    · rw [if_neg (not_not_intro g1)]
      by_cases g2 : t.atMaxDepth
      · rw [if_pos g2]
        exact wf_push g1 hw
      · rw [if_neg g2]
        by_cases g3 : t.points.length < t.capacity
        · rw [if_pos g3]
          exact wf_push g1 hw
        · rw [if_neg g3]
          match t, g1, hw with
          | .leaf b c d m pts, g1, hw =>
            have hwnw : (QTree.leaf b.childNW c (d+1) m []).wf :=
              fun q hq => absurd hq (List.not_mem_nil q)
            have hwne : (QTree.leaf b.childNE c (d+1) m []).wf :=
              fun q hq => absurd hq (List.not_mem_nil q)
            have hwsw : (QTree.leaf b.childSW c (d+1) m []).wf :=
              fun q hq => absurd hq (List.not_mem_nil q)
            have hwse : (QTree.leaf b.childSE c (d+1) m []).wf :=
              fun q hq => absurd hq (List.not_mem_nil q)
            exact wf_insertInto g1 hw
              (fun q hq => absurd hq (List.not_mem_nil q))
              (fun q hq => absurd hq (List.not_mem_nil q))
              (fun q hq => absurd hq (List.not_mem_nil q))
              (fun q hq => absurd hq (List.not_mem_nil q))
              (fun q => mem_stored_insert) (fun q => mem_stored_insert)
              (fun q => mem_stored_insert) (fun q => mem_stored_insert)
              hwnw hwne hwsw hwse
              (wf_insert fuel _ p hwnw) (wf_insert fuel _ p hwne)
              (wf_insert fuel _ p hwsw) (wf_insert fuel _ p hwse)
          | .div b c d m pts nw ne sw se, g1, hw =>
            obtain ⟨hall, h1, h2, h3, h4⟩ := hw
            refine wf_insertInto g1 ?_ ?_ ?_ ?_ ?_
              (fun q => mem_stored_insert) (fun q => mem_stored_insert)
              (fun q => mem_stored_insert) (fun q => mem_stored_insert)
              h1 h2 h3 h4
              (wf_insert fuel _ p h1) (wf_insert fuel _ p h2)
              (wf_insert fuel _ p h3) (wf_insert fuel _ p h4)
            · exact fun q hq => hall q (by simp [stored, List.mem_append, hq])
            · exact fun q hq => hall q (by simp [stored, List.mem_append, hq])
            · exact fun q hq => hall q (by simp [stored, List.mem_append, hq])
            · exact fun q hq => hall q (by simp [stored, List.mem_append, hq])
            · exact fun q hq => hall q (by simp [stored, List.mem_append, hq])
    · rw [if_pos g1]
      exact hw

end QTree

/-- C1: for every QuadTree t satisfying the containment invariant that
    construction and insertion maintain (every stored record is contained in
    the boundary of its node and of all nodes above it), and every query
    rectangle q, t.query(q) returns exactly the records stored in t or any of
    its descendants that satisfy q.contains — the pruning of subtrees whose
    boundary does not intersect q loses no matching record, and every
    returned record is stored and matches. -/
theorem quadtree_query_exact (t : QTree) (q : Rect) (r : Rec) (hw : t.wf) :
    r ∈ t.query q [] ↔ r ∈ t.stored ∧ q.contains r := by
  have h := @QTree.mem_query q r t hw []
  simpa using h

/-- Witness for quadtree_query_exact: the boundary, capacity and query
    rectangle of test_quadtree.py with two stored records; the matching
    record is returned. -/
theorem quadtree_query_exact_witness :
    (QTree.leaf ⟨0, 20, 0, 8⟩ 3 0 none [⟨10, 5, none, none⟩, ⟨19, 1, none, none⟩]).wf ∧
      (⟨10, 5, none, none⟩ : Rec) ∈
        (QTree.leaf ⟨0, 20, 0, 8⟩ 3 0 none
          [⟨10, 5, none, none⟩, ⟨19, 1, none, none⟩]).query ⟨9, 11, 4, 6⟩ [] := by
  have hw : (QTree.leaf ⟨0, 20, 0, 8⟩ 3 0 none
      [⟨10, 5, none, none⟩, ⟨19, 1, none, none⟩]).wf := by
    unfold QTree.wf
    intro p hp
    rcases List.mem_cons.mp hp with rfl | hp
    · norm_num [Rect.contains, Rect.tns, Rect.tew, tewCore, Rect.centreLon, Rect.lonRange,
        wrap360, pymod]
    rcases List.mem_cons.mp hp with rfl | hp
    · norm_num [Rect.contains, Rect.tns, Rect.tew, tewCore, Rect.centreLon, Rect.lonRange,
        wrap360, pymod]
    · exact absurd hp (List.not_mem_nil _)
  refine ⟨hw, ?_⟩
  refine (quadtree_query_exact _ _ _ hw).mpr ⟨by simp [QTree.stored], ?_⟩
  norm_num [Rect.contains, Rect.tns, Rect.tew, tewCore, Rect.centreLon, Rect.lonRange,
    wrap360, pymod]

theorem canonLon_eq_self {x : ℚ} (h1 : -180 ≤ x) (h2 : x ≤ 180) : canonLon x = x := by
  unfold canonLon
  rw [if_neg]
  push_neg
  exact ⟨h2, h1⟩

/-- SpaceTimeRecord from octtree.py: a record with a mandatory datetime.  The
    datetime is an orderable scalar (octtree.py documents numeric datetimes as
    supported), modelled as a rational. -/
structure STRec where
  lon : ℚ
  lat : ℚ
  datetime : ℚ
  uid : Option String
deriving DecidableEq, Repr

/-- SpaceTimeRectangle from octtree.py / shape.py.  The end field is named
    tEnd (end is reserved), start is tStart. -/
structure STRect where
  west : ℚ
  east : ℚ
  south : ℚ
  north : ℚ
  tStart : ℚ
  tEnd : ℚ
deriving DecidableEq, Repr

namespace STRect

/-- SpaceTimeRectangle.__post_init__: conditional canonicalization of west
    and east, LatitudeError when north > 90 or south < -90, and the reversed
    date range is swapped (with a DateWarning, which is not an error). -/
def make (west east south north tStart tEnd : ℚ) : Except GeoError STRect :=
  if north > 90 ∨ south < -90 then .error .latitudeError
  else if tEnd < tStart then .ok ⟨canonLon west, canonLon east, south, north, tEnd, tStart⟩
  else .ok ⟨canonLon west, canonLon east, south, north, tStart, tEnd⟩

/-- SpaceTimeRectangle construction without the latitude check (children of
    divide inherit validated latitudes); the date swap is kept. -/
def makeNoRaise (west east south north tStart tEnd : ℚ) : STRect :=
  if tEnd < tStart then ⟨canonLon west, canonLon east, south, north, tEnd, tStart⟩
  else ⟨canonLon west, canonLon east, south, north, tStart, tEnd⟩

/-- SpaceTimeRectangle.lon_range. -/
def lonRange (r : STRect) : ℚ :=
  if r.east < r.west then r.east - r.west + 360 else r.east - r.west

/-- SpaceTimeRectangle.lon. -/
def centreLon (r : STRect) : ℚ := wrap360 (r.west + r.lonRange / 2)

/-- SpaceTimeRectangle.lat_range. -/
def latRange (r : STRect) : ℚ := r.north - r.south

/-- SpaceTimeRectangle.lat. -/
def centreLat (r : STRect) : ℚ := r.south + r.latRange / 2

/-- SpaceTimeRectangle.time_range. -/
def timeRange (r : STRect) : ℚ := r.tEnd - r.tStart

/-- SpaceTimeRectangle.centre_datetime. -/
def centreDatetime (r : STRect) : ℚ := r.tStart + (r.tEnd - r.tStart) / 2

/-- SpaceTimeRectangle._test_east_west. -/
def tew (r : STRect) (x : ℚ) : Prop := tewCore r.west r.east r.centreLon r.lonRange x

instance (r : STRect) (x : ℚ) : Decidable (r.tew x) := by unfold tew; infer_instance

/-- SpaceTimeRectangle._test_north_south. -/
def tns (r : STRect) (x : ℚ) : Prop := x ≤ r.north ∧ r.south ≤ x

instance (r : STRect) (x : ℚ) : Decidable (r.tns x) := by unfold tns; infer_instance

/-- SpaceTimeRectangle.contains. -/
def contains (r : STRect) (p : STRec) : Prop :=
  if p.datetime > r.tEnd ∨ p.datetime < r.tStart then False
  else r.tns p.lat ∧ r.tew p.lon

instance (r : STRect) (p : STRec) : Decidable (r.contains p) := by
  unfold contains; infer_instance

end STRect

/-- Centre longitude of a proper (west < east, canonical) rectangle lies
    strictly between west and east. -/
theorem centre_between {w e : ℚ} (h1 : -180 ≤ w) (h2 : e ≤ 180) (h3 : w < e) :
    w < wrap360 (w + (if e < w then e - w + 360 else e - w) / 2) ∧
      wrap360 (w + (if e < w then e - w + 360 else e - w) / 2) < e := by
  rw [if_neg (by linarith : ¬ e < w)]
  by_cases h360 : 360 ≤ e - w
  · have hw : w = -180 := by linarith
    have he : e = 180 := by linarith
    subst hw
    subst he
    rw [show (-180 : ℚ) + (180 - -180) / 2 = 0 by norm_num,
      wrap360_eq_self (by norm_num) (by norm_num)]
    norm_num
  · rw [wrap360_eq_self (by linarith) (by push_neg at h360; linarith)]
    constructor <;> linarith

/-- For a proper (west < east, canonical) rectangle and a canonical
    longitude, the east-west test is the plain interval test. -/
theorem tewCore_proper {w e x : ℚ} (h1 : -180 ≤ w) (h2 : e ≤ 180) (h3 : w < e)
    (hx1 : -180 ≤ x) (hx2 : x ≤ 180) :
    tewCore w e (wrap360 (w + (if e < w then e - w + 360 else e - w) / 2))
      (if e < w then e - w + 360 else e - w) x ↔ (x ≤ e ∧ w ≤ x) := by
  have hc := centre_between h1 h2 h3
  unfold tewCore
  rw [if_neg (by linarith : ¬ e < w)] at hc ⊢
  by_cases h360 : 360 ≤ e - w
  · rw [if_pos h360]
    have hw : w = -180 := by linarith
    have he : e = 180 := by linarith
    subst hw
    subst he
    simp only [true_iff]
    exact ⟨hx2, hx1⟩
  · rw [if_neg h360, if_pos ⟨hc.2, hc.1⟩]

theorem Rect.tew_proper {r : Rect} {x : ℚ} (h1 : -180 ≤ r.west) (h2 : r.east ≤ 180)
    (h3 : r.west < r.east) (hx1 : -180 ≤ x) (hx2 : x ≤ 180) :
    r.tew x ↔ (x ≤ r.east ∧ r.west ≤ x) :=
  tewCore_proper h1 h2 h3 hx1 hx2

theorem STRect.st_tew_proper {r : STRect} {x : ℚ} (h1 : -180 ≤ r.west) (h2 : r.east ≤ 180)
    (h3 : r.west < r.east) (hx1 : -180 ≤ x) (hx2 : x ≤ 180) :
    r.tew x ↔ (x ≤ r.east ∧ r.west ≤ x) :=
  tewCore_proper h1 h2 h3 hx1 hx2

theorem Rect.contains_proper {r : Rect} {p : Rec} (h1 : -180 ≤ r.west) (h2 : r.east ≤ 180)
    (h3 : r.west < r.east) (hx1 : -180 ≤ p.lon) (hx2 : p.lon ≤ 180) :
    r.contains p ↔ (p.lat ≤ r.north ∧ r.south ≤ p.lat ∧ p.lon ≤ r.east ∧ r.west ≤ p.lon) := by
  unfold contains tns
  rw [Rect.tew_proper h1 h2 h3 hx1 hx2, and_assoc]

theorem STRect.st_contains_proper {r : STRect} {p : STRec} (h1 : -180 ≤ r.west)
    (h2 : r.east ≤ 180) (h3 : r.west < r.east) (hx1 : -180 ≤ p.lon) (hx2 : p.lon ≤ 180) :
    r.contains p ↔ (r.tStart ≤ p.datetime ∧ p.datetime ≤ r.tEnd ∧
      p.lat ≤ r.north ∧ r.south ≤ p.lat ∧ p.lon ≤ r.east ∧ r.west ≤ p.lon) := by
  unfold contains tns
  rw [STRect.st_tew_proper h1 h2 h3 hx1 hx2]
  split
  · rename_i hd
    rcases hd with hd | hd
    · constructor
      · exact False.elim
      · rintro ⟨-, h, -⟩
        linarith
    · constructor
      · exact False.elim
      · rintro ⟨h, -⟩
        linarith
  · rename_i hd
    push_neg at hd
    constructor
    · rintro ⟨⟨ha, hb⟩, hc, hd2⟩
      exact ⟨hd.2, hd.1, ha, hb, hc, hd2⟩
    · rintro ⟨-, -, ha, hb, hc, hd2⟩
      exact ⟨⟨ha, hb⟩, hc, hd2⟩

/-- C10 (amended): for every Rectangle whose canonical west and east coincide
    at a value strictly below 180, contains(p) returns false for every record
    p, because the longitude test falls through all of its case guards; when
    the shared value is exactly 180 the fall-through does not happen (see the
    counterexample) and the rectangle instead contains every longitude. -/
theorem degenerate_rect_contains_none (r : Rect) (hwe : r.west = r.east)
    (h1 : -180 ≤ r.west) (h2 : r.west < 180) (p : Rec) : ¬ r.contains p := by
  rintro ⟨-, htew⟩
  have hlr : r.lonRange = 0 := by
    unfold Rect.lonRange
    rw [← hwe, if_neg (lt_irrefl r.west)]
    ring
  have hcc : r.centreLon = r.west := by
    unfold Rect.centreLon
    rw [hlr]
    norm_num
    exact wrap360_eq_self h1 h2
  unfold Rect.tew at htew
  rw [← hwe, hlr, hcc] at htew
  unfold tewCore at htew
  rw [if_neg (by norm_num), if_neg (by simp [lt_irrefl]), if_neg (lt_irrefl r.west),
    if_neg (lt_irrefl r.west)] at htew
  exact htew

/-- Witness for degenerate_rect_contains_none: the rectangle with west =
    east = 0 contains no record. -/
theorem degenerate_rect_contains_none_witness :
    ¬ (⟨0, 0, 0, 10⟩ : Rect).contains ⟨0, 5, none, none⟩ :=
  degenerate_rect_contains_none ⟨0, 0, 0, 10⟩ rfl (by norm_num) (by norm_num) _

/-- C10 counterexample: the constructible rectangle with west = east = 180
    keeps both fields at 180 but its computed centre longitude wraps to -180,
    so the west-greater-than-centre wrap branch fires and accepts every
    longitude: the rectangle contains the record at longitude 0 (which is not
    even equal to the shared west/east value), contradicting the claim that
    such rectangles contain nothing. -/
theorem degenerate_rect_contains_none_counterexample :
    Rect.make 180 180 0 1 = .ok ⟨180, 180, 0, 1⟩ ∧
      (⟨180, 180, 0, 1⟩ : Rect).contains ⟨0, 1/2, none, none⟩ ∧ (0 : ℚ) ≠ 180 := by
  refine ⟨by norm_num [Rect.make, canonLon], ?_, by norm_num⟩
  unfold Rect.contains Rect.tns Rect.tew
  norm_num [tewCore, Rect.centreLon, Rect.lonRange, wrap360, pymod]

/-- C8 (amended): Rectangle and SpaceTimeRectangle construction raises
    LatitudeError exactly when north > 90 or south < -90; on success
    -90 <= south, north <= 90 and west, east lie in [-180, 180] (and for the
    space-time variant start <= end after the swap).  The south <= north part
    of the claimed invariant is not checked by the constructors (see the
    counterexample). -/
theorem rect_construction_checks :
    (∀ w e s n : ℚ, Rect.make w e s n = .error .latitudeError ↔ (n > 90 ∨ s < -90)) ∧
    (∀ w e s n : ℚ, ∀ r : Rect, Rect.make w e s n = .ok r →
      -90 ≤ r.south ∧ r.north ≤ 90 ∧ -180 ≤ r.west ∧ r.west ≤ 180 ∧
        -180 ≤ r.east ∧ r.east ≤ 180) ∧
    (∀ w e s n t0 t1 : ℚ, STRect.make w e s n t0 t1 = .error .latitudeError ↔
      (n > 90 ∨ s < -90)) ∧
    (∀ w e s n t0 t1 : ℚ, ∀ r : STRect, STRect.make w e s n t0 t1 = .ok r →
      -90 ≤ r.south ∧ r.north ≤ 90 ∧ -180 ≤ r.west ∧ r.west ≤ 180 ∧
        -180 ≤ r.east ∧ r.east ≤ 180 ∧ r.tStart ≤ r.tEnd) := by
  refine ⟨?_, ?_, ?_, ?_⟩
  · intro w e s n
    unfold Rect.make
    split
    · rename_i h
      simpa using h
    · rename_i h
      simpa using h
  · intro w e s n r hmk
    unfold Rect.make at hmk
    split at hmk
    · cases hmk
    · rename_i h
      push_neg at h
      obtain rfl := (Except.ok.inj hmk).symm
      exact ⟨h.2, h.1, (canonLon_mem w).1, (canonLon_mem w).2, (canonLon_mem e).1,
        (canonLon_mem e).2⟩
  · intro w e s n t0 t1
    unfold STRect.make
    split
    · rename_i h
      constructor
      · intro _
        simpa using h
      · intro _
        rfl
    · rename_i h
      constructor
      · intro hcon
        split at hcon <;> cases hcon
      · intro hcon
        simp only [not_or] at h
        rcases h with ⟨h1, h2⟩
        rcases hcon with h | h
        · exact absurd h h1
        · exact absurd h h2
  · intro w e s n t0 t1 r hmk
    unfold STRect.make at hmk
    split at hmk
    · cases hmk
    · rename_i h
      push_neg at h
      split at hmk <;> rename_i hsw <;> obtain rfl := (Except.ok.inj hmk).symm
      · exact ⟨h.2, h.1, (canonLon_mem w).1, (canonLon_mem w).2, (canonLon_mem e).1,
          (canonLon_mem e).2, le_of_lt hsw⟩
      · push_neg at hsw
        exact ⟨h.2, h.1, (canonLon_mem w).1, (canonLon_mem w).2, (canonLon_mem e).1,
          (canonLon_mem e).2, hsw⟩

/-- Witness for rect_construction_checks: a rectangle with out-of-range west
    and east is canonicalized on construction, and a reversed date range is
    swapped. -/
theorem rect_construction_checks_witness :
    Rect.make 200 (-190) 5 20 = .ok ⟨-160, 170, 5, 20⟩ ∧
      (-180 ≤ (⟨-160, 170, 5, 20⟩ : Rect).west ∧ (⟨-160, 170, 5, 20⟩ : Rect).west ≤ 180) ∧
      STRect.make 0 10 0 10 8 3 = .ok ⟨0, 10, 0, 10, 3, 8⟩ ∧
      (⟨0, 10, 0, 10, 3, 8⟩ : STRect).tStart ≤ (⟨0, 10, 0, 10, 3, 8⟩ : STRect).tEnd := by
  have hmk : Rect.make 200 (-190) 5 20 = .ok ⟨-160, 170, 5, 20⟩ := by
    norm_num [Rect.make, canonLon, wrap360, pymod]
  have hmk2 : STRect.make 0 10 0 10 8 3 = .ok ⟨0, 10, 0, 10, 3, 8⟩ := by
    norm_num [STRect.make, canonLon]
  have hb := rect_construction_checks.2.1 200 (-190) 5 20 _ hmk
  have hb2 := rect_construction_checks.2.2.2 0 10 0 10 8 3 _ hmk2
  exact ⟨hmk, ⟨hb.2.2.1, hb.2.2.2.1⟩, hmk2, hb2.2.2.2.2.2.2⟩

/-- C8 counterexample: Rectangle construction with south = 50 and north = 10
    succeeds even though the claimed invariant -90 <= south <= north <= 90
    fails (south > north is never checked). -/
theorem rect_construction_checks_counterexample :
    Rect.make 0 10 50 10 = .ok ⟨0, 10, 50, 10⟩ ∧ ¬ ((50 : ℚ) ≤ 10) := by
  refine ⟨by norm_num [Rect.make, canonLon], by norm_num⟩

namespace STRect

/-- Boundary of the northwest-forward child built by OctTree.divide. -/
def childNWf (B : STRect) : STRect :=
  makeNoRaise B.west B.centreLon B.centreLat B.north B.centreDatetime B.tEnd

/-- Boundary of the northeast-forward child built by OctTree.divide. -/
def childNEf (B : STRect) : STRect :=
  makeNoRaise B.centreLon B.east B.centreLat B.north B.centreDatetime B.tEnd

/-- Boundary of the southwest-forward child built by OctTree.divide. -/
def childSWf (B : STRect) : STRect :=
  makeNoRaise B.west B.centreLon B.south B.centreLat B.centreDatetime B.tEnd

/-- Boundary of the southeast-forward child built by OctTree.divide. -/
def childSEf (B : STRect) : STRect :=
  makeNoRaise B.centreLon B.east B.south B.centreLat B.centreDatetime B.tEnd

/-- Boundary of the northwest-back child built by OctTree.divide. -/
def childNWb (B : STRect) : STRect :=
  makeNoRaise B.west B.centreLon B.centreLat B.north B.tStart B.centreDatetime

/-- Boundary of the northeast-back child built by OctTree.divide. -/
def childNEb (B : STRect) : STRect :=
  makeNoRaise B.centreLon B.east B.centreLat B.north B.tStart B.centreDatetime

/-- Boundary of the southwest-back child built by OctTree.divide. -/
def childSWb (B : STRect) : STRect :=
  makeNoRaise B.west B.centreLon B.south B.centreLat B.tStart B.centreDatetime

/-- Boundary of the southeast-back child built by OctTree.divide. -/
def childSEb (B : STRect) : STRect :=
  makeNoRaise B.centreLon B.east B.south B.centreLat B.tStart B.centreDatetime

theorem makeNoRaise_eq {w e s n t0 t1 : ℚ} (hw1 : -180 ≤ w) (hw2 : w ≤ 180)
    (he1 : -180 ≤ e) (he2 : e ≤ 180) (ht : t0 ≤ t1) :
    makeNoRaise w e s n t0 t1 = ⟨w, e, s, n, t0, t1⟩ := by
  unfold makeNoRaise
  rw [if_neg (not_lt.mpr ht), canonLon_eq_self hw1 hw2, canonLon_eq_self he1 he2]

end STRect

theorem Rect.makeUnchecked_eq {w e s n : ℚ} (hw1 : -180 ≤ w) (hw2 : w ≤ 180)
    (he1 : -180 ≤ e) (he2 : e ≤ 180) :
    Rect.makeUnchecked w e s n = ⟨w, e, s, n⟩ := by
  unfold makeUnchecked
  rw [canonLon_eq_self hw1 hw2, canonLon_eq_self he1 he2]

/-- C6 (amended): for parent boundaries that do not wrap the antimeridian
    (canonical west strictly less than east) and records with canonical
    longitudes, divide() partitions the parent boundary: every record
    contained in the parent is contained in at least one of the four
    (respectively eight) children, and a record contained in two distinct
    children lies on a shared edge (longitude equal to the centre longitude,
    latitude equal to the centre latitude, or - for the OctTree - datetime
    equal to the centre datetime).  For wrapping parents whose computed
    centre longitude wraps past 180 the children fail to cover the parent
    (see the counterexample). -/
theorem divide_partitions :
    (∀ b : Rect, -180 ≤ b.west → b.east ≤ 180 → b.west < b.east →
      ∀ p : Rec, -180 ≤ p.lon → p.lon ≤ 180 →
        (b.contains p →
          (b.childNW.contains p ∨ b.childNE.contains p ∨ b.childSW.contains p ∨
            b.childSE.contains p)) ∧
        (∀ c1 ∈ [b.childNW, b.childNE, b.childSW, b.childSE],
          ∀ c2 ∈ [b.childNW, b.childNE, b.childSW, b.childSE],
            c1 ≠ c2 → c1.contains p → c2.contains p →
              p.lon = b.centreLon ∨ p.lat = b.centreLat)) ∧
    (∀ B : STRect, -180 ≤ B.west → B.east ≤ 180 → B.west < B.east → B.tStart ≤ B.tEnd →
      ∀ p : STRec, -180 ≤ p.lon → p.lon ≤ 180 →
        (B.contains p →
          (B.childNWb.contains p ∨ B.childNEb.contains p ∨ B.childSWb.contains p ∨
            B.childSEb.contains p ∨ B.childNWf.contains p ∨ B.childNEf.contains p ∨
            B.childSWf.contains p ∨ B.childSEf.contains p)) ∧
        (∀ c1 ∈ [B.childNWb, B.childNEb, B.childSWb, B.childSEb,
            B.childNWf, B.childNEf, B.childSWf, B.childSEf],
          ∀ c2 ∈ [B.childNWb, B.childNEb, B.childSWb, B.childSEb,
            B.childNWf, B.childNEf, B.childSWf, B.childSEf],
            c1 ≠ c2 → c1.contains p → c2.contains p →
              p.lon = B.centreLon ∨ p.lat = B.centreLat ∨
                p.datetime = B.centreDatetime)) := by
  constructor
  · intro b h1 h2 h3 p hp1 hp2
    have hcb : b.west < b.centreLon ∧ b.centreLon < b.east := centre_between h1 h2 h3
    have hcl1 : (-180 : ℚ) ≤ b.centreLon := (wrap360_mem _).1
    have hcl2 : b.centreLon ≤ 180 := le_of_lt (wrap360_mem _).2
    have hNW : b.childNW = ⟨b.west, b.centreLon, b.centreLat, b.north⟩ :=
      Rect.makeUnchecked_eq h1 (by linarith) hcl1 hcl2
    have hNE : b.childNE = ⟨b.centreLon, b.east, b.centreLat, b.north⟩ :=
      Rect.makeUnchecked_eq hcl1 hcl2 (by linarith) h2
    have hSW : b.childSW = ⟨b.west, b.centreLon, b.south, b.centreLat⟩ :=
      Rect.makeUnchecked_eq h1 (by linarith) hcl1 hcl2
    have hSE : b.childSE = ⟨b.centreLon, b.east, b.south, b.centreLat⟩ :=
      Rect.makeUnchecked_eq hcl1 hcl2 (by linarith) h2
    have cNW : b.childNW.contains p ↔
        (p.lat ≤ b.north ∧ b.centreLat ≤ p.lat ∧ p.lon ≤ b.centreLon ∧ b.west ≤ p.lon) := by
      rw [hNW]
      exact Rect.contains_proper h1 hcl2 hcb.1 hp1 hp2
    have cNE : b.childNE.contains p ↔
        (p.lat ≤ b.north ∧ b.centreLat ≤ p.lat ∧ p.lon ≤ b.east ∧ b.centreLon ≤ p.lon) := by
      rw [hNE]
      exact Rect.contains_proper hcl1 h2 hcb.2 hp1 hp2
    have cSW : b.childSW.contains p ↔
        (p.lat ≤ b.centreLat ∧ b.south ≤ p.lat ∧ p.lon ≤ b.centreLon ∧ b.west ≤ p.lon) := by
      rw [hSW]
      exact Rect.contains_proper h1 hcl2 hcb.1 hp1 hp2
    have cSE : b.childSE.contains p ↔
        (p.lat ≤ b.centreLat ∧ b.south ≤ p.lat ∧ p.lon ≤ b.east ∧ b.centreLon ≤ p.lon) := by
      rw [hSE]
      exact Rect.contains_proper hcl1 h2 hcb.2 hp1 hp2
    constructor
    · intro hc
      rw [Rect.contains_proper h1 h2 h3 hp1 hp2] at hc
      obtain ⟨ha, hb', hc', hd⟩ := hc
      rw [cNW, cNE, cSW, cSE]
      rcases le_or_lt p.lon b.centreLon with hx | hx <;>
        rcases le_or_lt p.lat b.centreLat with hy | hy
      · exact Or.inr (Or.inr (Or.inl ⟨hy, hb', hx, hd⟩))
      · exact Or.inl ⟨ha, le_of_lt hy, hx, hd⟩
      · exact Or.inr (Or.inr (Or.inr ⟨hy, hb', hc', le_of_lt hx⟩))
      · exact Or.inr (Or.inl ⟨ha, le_of_lt hy, hc', le_of_lt hx⟩)
    · intro c1 hm1 c2 hm2 hne hcc1 hcc2
      simp only [List.mem_cons, List.mem_singleton, List.not_mem_nil, or_false] at hm1 hm2
      rcases hm1 with rfl | rfl | rfl | rfl <;> rcases hm2 with rfl | rfl | rfl | rfl <;>
        first
          | exact absurd rfl hne
          | skip
      all_goals
        simp only [cNW, cNE, cSW, cSE] at hcc1 hcc2
      all_goals obtain ⟨a1, a2, a3, a4⟩ := hcc1
      all_goals obtain ⟨b1, b2, b3, b4⟩ := hcc2
      all_goals first
        | (left; linarith)
        | (right; linarith)
  · intro B h1 h2 h3 hT p hp1 hp2
    have hcb : B.west < B.centreLon ∧ B.centreLon < B.east := centre_between h1 h2 h3
    have hcl1 : (-180 : ℚ) ≤ B.centreLon := (wrap360_mem _).1
    have hcl2 : B.centreLon ≤ 180 := le_of_lt (wrap360_mem _).2
    have hT1 : B.tStart ≤ B.centreDatetime := by
      unfold STRect.centreDatetime
      linarith
    have hT2 : B.centreDatetime ≤ B.tEnd := by
      unfold STRect.centreDatetime
      linarith
    have hNWb : B.childNWb = ⟨B.west, B.centreLon, B.centreLat, B.north,
        B.tStart, B.centreDatetime⟩ :=
      STRect.makeNoRaise_eq h1 (by linarith) hcl1 hcl2 hT1
    have hNEb : B.childNEb = ⟨B.centreLon, B.east, B.centreLat, B.north,
        B.tStart, B.centreDatetime⟩ :=
      STRect.makeNoRaise_eq hcl1 hcl2 (by linarith) h2 hT1
    have hSWb : B.childSWb = ⟨B.west, B.centreLon, B.south, B.centreLat,
        B.tStart, B.centreDatetime⟩ :=
      STRect.makeNoRaise_eq h1 (by linarith) hcl1 hcl2 hT1
    have hSEb : B.childSEb = ⟨B.centreLon, B.east, B.south, B.centreLat,
        B.tStart, B.centreDatetime⟩ :=
      STRect.makeNoRaise_eq hcl1 hcl2 (by linarith) h2 hT1
    have hNWf : B.childNWf = ⟨B.west, B.centreLon, B.centreLat, B.north,
        B.centreDatetime, B.tEnd⟩ :=
      STRect.makeNoRaise_eq h1 (by linarith) hcl1 hcl2 hT2
    have hNEf : B.childNEf = ⟨B.centreLon, B.east, B.centreLat, B.north,
        B.centreDatetime, B.tEnd⟩ :=
      STRect.makeNoRaise_eq hcl1 hcl2 (by linarith) h2 hT2
    have hSWf : B.childSWf = ⟨B.west, B.centreLon, B.south, B.centreLat,
        B.centreDatetime, B.tEnd⟩ :=
      STRect.makeNoRaise_eq h1 (by linarith) hcl1 hcl2 hT2
    have hSEf : B.childSEf = ⟨B.centreLon, B.east, B.south, B.centreLat,
        B.centreDatetime, B.tEnd⟩ :=
      STRect.makeNoRaise_eq hcl1 hcl2 (by linarith) h2 hT2
    have cNWb : B.childNWb.contains p ↔
        (B.tStart ≤ p.datetime ∧ p.datetime ≤ B.centreDatetime ∧
          p.lat ≤ B.north ∧ B.centreLat ≤ p.lat ∧ p.lon ≤ B.centreLon ∧ B.west ≤ p.lon) := by
      rw [hNWb]
      exact STRect.st_contains_proper h1 hcl2 hcb.1 hp1 hp2
    have cNEb : B.childNEb.contains p ↔
        (B.tStart ≤ p.datetime ∧ p.datetime ≤ B.centreDatetime ∧
          p.lat ≤ B.north ∧ B.centreLat ≤ p.lat ∧ p.lon ≤ B.east ∧ B.centreLon ≤ p.lon) := by
      rw [hNEb]
      exact STRect.st_contains_proper hcl1 h2 hcb.2 hp1 hp2
    have cSWb : B.childSWb.contains p ↔
        (B.tStart ≤ p.datetime ∧ p.datetime ≤ B.centreDatetime ∧
          p.lat ≤ B.centreLat ∧ B.south ≤ p.lat ∧ p.lon ≤ B.centreLon ∧ B.west ≤ p.lon) := by
      rw [hSWb]
      exact STRect.st_contains_proper h1 hcl2 hcb.1 hp1 hp2
    have cSEb : B.childSEb.contains p ↔
        (B.tStart ≤ p.datetime ∧ p.datetime ≤ B.centreDatetime ∧
          p.lat ≤ B.centreLat ∧ B.south ≤ p.lat ∧ p.lon ≤ B.east ∧ B.centreLon ≤ p.lon) := by
      rw [hSEb]
      exact STRect.st_contains_proper hcl1 h2 hcb.2 hp1 hp2
    have cNWf : B.childNWf.contains p ↔
        (B.centreDatetime ≤ p.datetime ∧ p.datetime ≤ B.tEnd ∧
          p.lat ≤ B.north ∧ B.centreLat ≤ p.lat ∧ p.lon ≤ B.centreLon ∧ B.west ≤ p.lon) := by
      rw [hNWf]
      exact STRect.st_contains_proper h1 hcl2 hcb.1 hp1 hp2
    have cNEf : B.childNEf.contains p ↔
        (B.centreDatetime ≤ p.datetime ∧ p.datetime ≤ B.tEnd ∧
          p.lat ≤ B.north ∧ B.centreLat ≤ p.lat ∧ p.lon ≤ B.east ∧ B.centreLon ≤ p.lon) := by
      rw [hNEf]
      exact STRect.st_contains_proper hcl1 h2 hcb.2 hp1 hp2
    have cSWf : B.childSWf.contains p ↔
        (B.centreDatetime ≤ p.datetime ∧ p.datetime ≤ B.tEnd ∧
          p.lat ≤ B.centreLat ∧ B.south ≤ p.lat ∧ p.lon ≤ B.centreLon ∧ B.west ≤ p.lon) := by
      rw [hSWf]
      exact STRect.st_contains_proper h1 hcl2 hcb.1 hp1 hp2
    have cSEf : B.childSEf.contains p ↔
        (B.centreDatetime ≤ p.datetime ∧ p.datetime ≤ B.tEnd ∧
          p.lat ≤ B.centreLat ∧ B.south ≤ p.lat ∧ p.lon ≤ B.east ∧ B.centreLon ≤ p.lon) := by
      rw [hSEf]
      exact STRect.st_contains_proper hcl1 h2 hcb.2 hp1 hp2
    constructor
    · intro hc
      rw [STRect.st_contains_proper h1 h2 h3 hp1 hp2] at hc
      obtain ⟨ha, hb', hc', hd, he', hf⟩ := hc
      rw [cNWb, cNEb, cSWb, cSEb, cNWf, cNEf, cSWf, cSEf]
      rcases le_or_lt p.lon B.centreLon with hx | hx <;>
        rcases le_or_lt p.lat B.centreLat with hy | hy <;>
          rcases le_or_lt p.datetime B.centreDatetime with ht | ht <;>
            first
              | (left
                 refine ⟨?_, ?_, ?_, ?_, ?_, ?_⟩ <;> linarith)
              | (right; left
                 refine ⟨?_, ?_, ?_, ?_, ?_, ?_⟩ <;> linarith)
              | (right; right; left
                 refine ⟨?_, ?_, ?_, ?_, ?_, ?_⟩ <;> linarith)
              | (right; right; right; left
                 refine ⟨?_, ?_, ?_, ?_, ?_, ?_⟩ <;> linarith)
              | (right; right; right; right; left
                 refine ⟨?_, ?_, ?_, ?_, ?_, ?_⟩ <;> linarith)
              | (right; right; right; right; right; left
                 refine ⟨?_, ?_, ?_, ?_, ?_, ?_⟩ <;> linarith)
              | (right; right; right; right; right; right; left
                 refine ⟨?_, ?_, ?_, ?_, ?_, ?_⟩ <;> linarith)
              | (right; right; right; right; right; right; right
                 refine ⟨?_, ?_, ?_, ?_, ?_, ?_⟩ <;> linarith)
    · intro c1 hm1 c2 hm2 hne hcc1 hcc2
      simp only [List.mem_cons, List.mem_singleton, List.not_mem_nil, or_false] at hm1 hm2
      rcases hm1 with rfl | rfl | rfl | rfl | rfl | rfl | rfl | rfl <;>
        rcases hm2 with rfl | rfl | rfl | rfl | rfl | rfl | rfl | rfl <;>
          first
            | exact absurd rfl hne
            | skip
      all_goals
        simp only [cNWb, cNEb, cSWb, cSEb, cNWf, cNEf, cSWf, cSEf] at hcc1 hcc2
      all_goals obtain ⟨a1, a2, a3, a4, a5, a6⟩ := hcc1
      all_goals obtain ⟨b1, b2, b3, b4, b5, b6⟩ := hcc2
      all_goals first
        | (left; linarith)
        | (right; left; linarith)
        | (right; right; linarith)

/-- Witness for divide_partitions: the test boundary Rectangle(0, 20, 0, 8)
    and the record (13, 2); the record lands in one of the four children. -/
theorem divide_partitions_witness :
    (⟨0, 20, 0, 8⟩ : Rect).childNW.contains ⟨13, 2, none, none⟩ ∨
      (⟨0, 20, 0, 8⟩ : Rect).childNE.contains ⟨13, 2, none, none⟩ ∨
      (⟨0, 20, 0, 8⟩ : Rect).childSW.contains ⟨13, 2, none, none⟩ ∨
      (⟨0, 20, 0, 8⟩ : Rect).childSE.contains ⟨13, 2, none, none⟩ :=
  (divide_partitions.1 ⟨0, 20, 0, 8⟩ (by norm_num) (by norm_num) (by norm_num)
    ⟨13, 2, none, none⟩ (by norm_num) (by norm_num)).1
    (by norm_num [Rect.contains, Rect.tns, Rect.tew, tewCore, Rect.centreLon,
      Rect.lonRange, wrap360, pymod])

/-- C6 counterexample: the antimeridian-wrapping parent Rectangle(west = 170,
    east = -170, south = 0, north = 10) contains the record (0, 7) (its
    computed centre longitude wraps to -180 and the west-greater-than-centre
    branch accepts every longitude), yet none of the four children produced
    by divide() contains that record: the children do not cover the parent
    boundary. -/
theorem divide_partitions_counterexample :
    Rect.make 170 (-170) 0 10 = .ok ⟨170, -170, 0, 10⟩ ∧
      (⟨170, -170, 0, 10⟩ : Rect).contains ⟨0, 7, none, none⟩ ∧
      ¬ (⟨170, -170, 0, 10⟩ : Rect).childNW.contains ⟨0, 7, none, none⟩ ∧
      ¬ (⟨170, -170, 0, 10⟩ : Rect).childNE.contains ⟨0, 7, none, none⟩ ∧
      ¬ (⟨170, -170, 0, 10⟩ : Rect).childSW.contains ⟨0, 7, none, none⟩ ∧
      ¬ (⟨170, -170, 0, 10⟩ : Rect).childSE.contains ⟨0, 7, none, none⟩ := by
  refine ⟨by norm_num [Rect.make, canonLon], ?_, ?_, ?_, ?_, ?_⟩ <;>
    norm_num [Rect.contains, Rect.tns, Rect.tew, tewCore, Rect.childNW, Rect.childNE,
      Rect.childSW, Rect.childSE, Rect.makeUnchecked, canonLon, Rect.centreLon,
      Rect.centreLat, Rect.lonRange, Rect.latRange, wrap360, pymod]

/-- Modelled from the spec: Python module bisect is outside the repository;
    the spec describes finding the insertion position by bisect-right into a
    sorted list.  On a non-decreasing list, bisect-right is the first index
    whose element strictly exceeds the query. -/
def bisectRight (q : ℚ) : List ℚ → ℕ
  | [] => 0
  | x :: xs => if q < x then 0 else bisectRight q xs + 1

/-- neighbours._find_nearest.  The trailing argmin over the two candidate
    distances (numpy argmin, first minimum on ties) becomes the
    less-or-equal comparison choosing index i - 1. -/
def findNearestIdx (vals : List ℚ) (q : ℚ) : ℕ :=
  if bisectRight q vals = 0 ∧ q ≤ vals.getD 0 0 then 0
  else if bisectRight q vals = vals.length ∧ vals.getD (vals.length - 1) 0 ≤ q then
    vals.length - 1
  else if |q - vals.getD (bisectRight q vals - 1) 0| ≤ |q - vals.getD (bisectRight q vals) 0|
    then bisectRight q vals - 1
  else bisectRight q vals

/-- neighbours.find_nearest: the single-value lookup mapped over the query
    list. -/
def findNearest (vals : List ℚ) (qs : List ℚ) : List ℕ := qs.map (findNearestIdx vals)

theorem bisectRight_le_length (q : ℚ) : ∀ l : List ℚ, bisectRight q l ≤ l.length
  | [] => le_refl 0
  | x :: xs => by
    unfold bisectRight
    split
    · exact Nat.zero_le _
    · simpa using bisectRight_le_length q xs

theorem getD_le_of_lt_bisectRight {q : ℚ} :
    ∀ {l : List ℚ} {j : ℕ}, j < bisectRight q l → l.getD j 0 ≤ q
  | [], j, h => by simp [bisectRight] at h
  | x :: xs, 0, h => by
    unfold bisectRight at h
    split at h
    · exact absurd h (Nat.not_lt_zero 0)
    · rename_i hx
      exact not_lt.mp hx
  | x :: xs, j + 1, h => by
    unfold bisectRight at h
    split at h
    · exact absurd h (Nat.not_lt_zero _)
    · exact @getD_le_of_lt_bisectRight q xs j (Nat.lt_of_succ_lt_succ h)

theorem lt_getD_of_bisectRight_le {q : ℚ} :
    ∀ {l : List ℚ}, List.Sorted (· ≤ ·) l →
      ∀ {j : ℕ}, bisectRight q l ≤ j → j < l.length → q < l.getD j 0
  | [], _, j, _, h => absurd h (Nat.not_lt_zero j)
  | x :: xs, hs, 0, hle, _ => by
    unfold bisectRight at hle
    split at hle
    · rename_i hx
      exact hx
    · exact absurd hle (by simp)
  | x :: xs, hs, j + 1, hle, hlen => by
    obtain ⟨hhead, htail⟩ := List.sorted_cons.mp hs
    have hj : j < xs.length := Nat.lt_of_succ_lt_succ hlen
    unfold bisectRight at hle
    split at hle
    · rename_i hx
      have hmem : xs.getD j 0 ∈ xs := by
        rw [List.getD_eq_getElem xs 0 hj]
        exact List.getElem_mem hj
      calc q < x := hx
        _ ≤ xs.getD j 0 := hhead _ hmem
    · exact @lt_getD_of_bisectRight_le q xs htail j (Nat.le_of_succ_le_succ hle) hj

theorem sorted_getD_mono {l : List ℚ} (hs : List.Sorted (· ≤ ·) l) {j k : ℕ}
    (hjk : j ≤ k) (hk : k < l.length) : l.getD j 0 ≤ l.getD k 0 := by
  rcases eq_or_lt_of_le hjk with rfl | hlt
  · exact le_refl _
  · have hj : j < l.length := lt_trans hlt hk
    rw [List.getD_eq_getElem _ _ hj, List.getD_eq_getElem _ _ hk]
    exact List.pairwise_iff_get.mp hs ⟨j, hj⟩ ⟨k, hk⟩ hlt

/-- C7 (amended): for a non-empty non-decreasing list, _find_nearest returns
    a valid index minimising |vals[j] - q| over all indices; it returns 0
    when q is strictly below the first element and len - 1 when q is at least
    the last element; between the two bisect candidates i - 1 and i, ties go
    to i - 1.  The returned index is however not always the earliest index
    achieving the minimum (see the counterexample: with duplicates the
    returned index can come after an equally close one). -/
theorem find_nearest_argmin (vals : List ℚ) (q : ℚ) (hne : vals ≠ [])
    (hs : List.Sorted (· ≤ ·) vals) :
    findNearestIdx vals q < vals.length ∧
    (∀ j < vals.length,
      |vals.getD (findNearestIdx vals q) 0 - q| ≤ |vals.getD j 0 - q|) ∧
    (q < vals.getD 0 0 → findNearestIdx vals q = 0) ∧
    (vals.getD (vals.length - 1) 0 ≤ q → findNearestIdx vals q = vals.length - 1) := by
  have hn : 0 < vals.length := List.length_pos.mpr hne
  have hbl := bisectRight_le_length q vals
  unfold findNearestIdx
  split_ifs with g1 g2 g3
  · -- i = 0 and q ≤ vals[0]
    refine ⟨hn, ?_, fun _ => rfl, ?_⟩
    · intro j hj
      have hqj : q < vals.getD j 0 := lt_getD_of_bisectRight_le hs (g1.1 ▸ Nat.zero_le j) hj
      have hq0 : vals.getD 0 0 ≤ vals.getD j 0 := sorted_getD_mono hs (Nat.zero_le j) hj
      rw [abs_of_nonneg (by linarith), abs_of_nonneg (by linarith)]
      linarith
    · intro hlast
      have hql : q < vals.getD (vals.length - 1) 0 :=
        lt_getD_of_bisectRight_le hs (g1.1 ▸ Nat.zero_le _) (by omega)
      linarith
  · -- i = len and vals[len-1] ≤ q
    refine ⟨by omega, ?_, ?_, fun _ => rfl⟩
    · intro j hj
      have hjq : vals.getD j 0 ≤ q := getD_le_of_lt_bisectRight (g2.1 ▸ hj)
      have hj0 : vals.getD j 0 ≤ vals.getD (vals.length - 1) 0 :=
        sorted_getD_mono hs (by omega) (by omega)
      rw [abs_of_nonpos (by linarith), abs_of_nonpos (by linarith)]
      linarith
    · intro h0
      have h00 : vals.getD 0 0 ≤ q := getD_le_of_lt_bisectRight (g2.1 ▸ hn)
      linarith
  all_goals
    have hipos : 0 < bisectRight q vals := by
      rcases Nat.eq_zero_or_pos (bisectRight q vals) with hz | hp
      · exfalso
        have h00 := lt_getD_of_bisectRight_le hs (le_of_eq hz) hn
        exact g1 ⟨hz, le_of_lt h00⟩
      · exact hp
  all_goals
    have hilt : bisectRight q vals < vals.length := by
      rcases lt_or_eq_of_le hbl with hlt | heq
      · exact hlt
      · exfalso
        have hl1 : vals.length - 1 < bisectRight q vals := by omega
        exact g2 ⟨heq, getD_le_of_lt_bisectRight hl1⟩
  all_goals
    have hlow : vals.getD (bisectRight q vals - 1) 0 ≤ q :=
      getD_le_of_lt_bisectRight (by omega)
  all_goals
    have hhigh : q < vals.getD (bisectRight q vals) 0 :=
      lt_getD_of_bisectRight_le hs (le_refl _) hilt
  all_goals
    have hfirst : ¬ q < vals.getD 0 0 := by
      push_neg
      have hm := sorted_getD_mono hs (Nat.zero_le (bisectRight q vals - 1)) (by omega)
      linarith
  all_goals
    have hlast : ¬ vals.getD (vals.length - 1) 0 ≤ q := by
      push_neg
      have hm : vals.getD (bisectRight q vals) 0 ≤ vals.getD (vals.length - 1) 0 :=
        sorted_getD_mono hs (by omega) (by omega)
      linarith
  · -- middle case, tie or closer at i - 1
    refine ⟨by omega, ?_, fun h => absurd h hfirst, fun h => absurd h hlast⟩
    intro j hj
    rcases lt_or_le j (bisectRight q vals) with hjlt | hjge
    · have hjq : vals.getD j 0 ≤ q := getD_le_of_lt_bisectRight hjlt
      have hmono : vals.getD j 0 ≤ vals.getD (bisectRight q vals - 1) 0 :=
        sorted_getD_mono hs (by omega) (by omega)
      rw [abs_of_nonpos (by linarith), abs_of_nonpos (by linarith)]
      linarith
    · have hjq : q < vals.getD j 0 := lt_getD_of_bisectRight_le hs hjge hj
      have hmono : vals.getD (bisectRight q vals) 0 ≤ vals.getD j 0 :=
        sorted_getD_mono hs hjge hj
      rw [abs_sub_comm q (vals.getD (bisectRight q vals - 1) 0),
        abs_sub_comm q (vals.getD (bisectRight q vals) 0)] at g3
      calc |vals.getD (bisectRight q vals - 1) 0 - q|
          ≤ |vals.getD (bisectRight q vals) 0 - q| := g3
        _ = vals.getD (bisectRight q vals) 0 - q := abs_of_nonneg (by linarith)
        _ ≤ vals.getD j 0 - q := by linarith
        _ ≤ |vals.getD j 0 - q| := le_abs_self _
  · -- middle case, strictly closer at i
    push_neg at g3
    refine ⟨hilt, ?_, fun h => absurd h hfirst, fun h => absurd h hlast⟩
    intro j hj
    rcases lt_or_le j (bisectRight q vals) with hjlt | hjge
    · have hjq : vals.getD j 0 ≤ q := getD_le_of_lt_bisectRight hjlt
      have hmono : vals.getD j 0 ≤ vals.getD (bisectRight q vals - 1) 0 :=
        sorted_getD_mono hs (by omega) (by omega)
      rw [abs_sub_comm q (vals.getD (bisectRight q vals - 1) 0),
        abs_sub_comm q (vals.getD (bisectRight q vals) 0)] at g3
      rw [abs_of_nonneg (by linarith)]
      calc vals.getD (bisectRight q vals) 0 - q
          ≤ |vals.getD (bisectRight q vals) 0 - q| := le_abs_self _
        _ ≤ |vals.getD (bisectRight q vals - 1) 0 - q| := le_of_lt g3
        _ = -(vals.getD (bisectRight q vals - 1) 0 - q) := by
            rw [abs_of_nonpos (by linarith)]
        _ = q - vals.getD (bisectRight q vals - 1) 0 := by ring
        _ ≤ q - vals.getD j 0 := by linarith
        _ = |vals.getD j 0 - q| := by rw [abs_of_nonpos (by linarith)]; ring
    · have hjq : q < vals.getD j 0 := lt_getD_of_bisectRight_le hs hjge hj
      have hmono : vals.getD (bisectRight q vals) 0 ≤ vals.getD j 0 :=
        sorted_getD_mono hs hjge hj
      rw [abs_of_nonneg (by linarith), abs_of_nonneg (by linarith)]
      linarith

/-- Witness for find_nearest_argmin: vals = [1, 3, 9], query 4; the returned
    index is at least as close as index 0. -/
theorem find_nearest_argmin_witness :
    |[(1 : ℚ), 3, 9].getD (findNearestIdx [1, 3, 9] 4) 0 - 4| ≤
      |[(1 : ℚ), 3, 9].getD 0 0 - 4| :=
  (find_nearest_argmin [1, 3, 9] 4 (by simp)
    (by simp [List.sorted_cons]; norm_num)).2.1 0 (by simp)

/-- C7 counterexample: vals = [3, 3], query 3.  The query satisfies
    q ≤ vals[0], for which the claim requires index 0, and index 0 achieves
    the minimum |vals[j] - q| = 0, yet _find_nearest returns 1 (bisect-right
    lands at the end of the duplicate run, and the i == len branch returns
    len - 1): neither the boundary rule nor the earliest-tie rule of the
    claim holds. -/
theorem find_nearest_argmin_counterexample :
    findNearestIdx [3, 3] 3 = 1 ∧ (3 : ℚ) ≤ [(3 : ℚ), 3].getD 0 0 ∧
      |[(3 : ℚ), 3].getD 0 0 - 3| = |[(3 : ℚ), 3].getD 1 0 - 3| := by
  refine ⟨?_, by simp, by simp⟩
  norm_num [findNearestIdx, bisectRight]

/-- Stable insertion step: place r after every element whose key is strictly
    smaller, before the first element whose key is not. -/
def insertRecBy (key : Rec → ℚ) (r : Rec) : List Rec → List Rec
  | [] => [r]
  | x :: xs => if key x < key r then x :: insertRecBy key r xs else r :: x :: xs

/-- Stable sort by a rational key; models the stable Python list.sort with a
    key function (any two stable sorts agree, so insertion sort is a faithful
    model of timsort here). -/
def sortRecBy (key : Rec → ℚ) : List Rec → List Rec
  | [] => []
  | x :: xs => insertRecBy key x (sortRecBy key xs)

theorem perm_insertRecBy (key : Rec → ℚ) (r : Rec) :
    ∀ l : List Rec, List.Perm (insertRecBy key r l) (r :: l)
  | [] => List.Perm.refl _
  | x :: xs => by
    unfold insertRecBy
    split
    · exact List.Perm.trans (List.Perm.cons x (perm_insertRecBy key r xs))
        (List.Perm.swap r x xs)
    · exact List.Perm.refl _

theorem perm_sortRecBy (key : Rec → ℚ) : ∀ l : List Rec, List.Perm (sortRecBy key l) l
  | [] => List.Perm.refl _
  | x :: xs => by
    unfold sortRecBy
    exact List.Perm.trans (perm_insertRecBy key x _)
      (List.Perm.cons x (perm_sortRecBy key xs))

/-- The KDTree class: a node either holds points (split = False) or an axis,
    a partition value and two children (split = True). -/
inductive KD where
  | leaf (points : List Rec)
  | node (axis : ℕ) (partitionValue : ℚ) (left right : KD)
deriving DecidableEq

/-- getattr(p, self.variable) with variable = lon for axis 0, lat for
    axis 1. -/
def keyOf (axis : ℕ) (r : Rec) : ℚ := if axis = 0 then r.lon else r.lat

/-- The partition value chosen by KDTree.__init__: the axis value of the
    sorted point at index n // 2 - 1. -/
def kdPartitionValue (axis : ℕ) (n : ℕ) (sorted : List Rec) : ℚ :=
  keyOf axis (sorted.getD (n / 2 - 1) ⟨0, 0, none, none⟩)

/-- The split index chosen by KDTree.__init__: n // 2 advanced past the run
    of sorted points whose axis value equals the partition value (the while
    loop). -/
def kdSplitIndex (axis : ℕ) (n : ℕ) (sorted : List Rec) : ℕ :=
  n / 2 + ((sorted.drop (n / 2)).takeWhile
    (fun r => decide (keyOf axis r = kdPartitionValue axis n sorted))).length

/-- KDTree.__init__.  The node case sorts on the current axis (depth mod 2),
    splits at kdSplitIndex, and recurses.  The children are always built
    with the default max_depth of 20 (the Python recursion does not forward
    max_depth), so the stopping test compares the depth against the literal
    20; the fuel argument pays for the recursion and any value at least
    21 - depth reproduces the Python behaviour for builds started at
    depth 0. -/
def kdBuildAux : ℕ → List Rec → ℕ → KD
  | 0, pts, _ => .leaf pts
  | fuel + 1, pts, depth =>
    if depth = 20 ∨ pts.length < 2 then .leaf pts
    else
      .node (depth % 2)
        (kdPartitionValue (depth % 2) pts.length (sortRecBy (keyOf (depth % 2)) pts))
        (kdBuildAux fuel ((sortRecBy (keyOf (depth % 2)) pts).take
          (kdSplitIndex (depth % 2) pts.length (sortRecBy (keyOf (depth % 2)) pts))) (depth + 1))
        (kdBuildAux fuel ((sortRecBy (keyOf (depth % 2)) pts).drop
          (kdSplitIndex (depth % 2) pts.length (sortRecBy (keyOf (depth % 2)) pts))) (depth + 1))

/-- KDTree(points) with the default depth 0 and max_depth 20. -/
def kdBuild (pts : List Rec) : KD := kdBuildAux 21 pts 0

/-- All records stored in the leaves of a KDTree. -/
def kdStored : KD → List Rec
  | .leaf pts => pts
  | .node _ _ l r => kdStored l ++ kdStored r

/-- KDTree.insert: descend left on strictly smaller axis value, right
    otherwise; at the leaf, refuse when an equal record (Record.__eq__) is
    present, append otherwise. -/
def kdInsert : KD → Rec → KD × Bool
  | .leaf pts, p => if inPts p pts then (.leaf pts, false) else (.leaf (pts ++ [p]), true)
  | .node a v l r, p =>
    if keyOf a p < v then
      (KD.node a v (kdInsert l p).1 r, (kdInsert l p).2)
    else
      (KD.node a v l (kdInsert r p).1, (kdInsert r p).2)

/-- The points list of the leaf that kdInsert descends to. -/
def kdReach : KD → Rec → List Rec
  | .leaf pts, _ => pts
  | .node a v l r, p => if keyOf a p < v then kdReach l p else kdReach r p

theorem kdStored_build_perm : ∀ (fuel : ℕ) (pts : List Rec) (depth : ℕ),
    List.Perm (kdStored (kdBuildAux fuel pts depth)) pts
  | 0, _, _ => List.Perm.refl _
  | fuel + 1, pts, depth => by
    unfold kdBuildAux
    split
    · exact List.Perm.refl _
    · simp only [kdStored]
      have h1 := kdStored_build_perm fuel
        ((sortRecBy (keyOf (depth % 2)) pts).take
          (kdSplitIndex (depth % 2) pts.length (sortRecBy (keyOf (depth % 2)) pts))) (depth + 1)
      have h2 := kdStored_build_perm fuel
        ((sortRecBy (keyOf (depth % 2)) pts).drop
          (kdSplitIndex (depth % 2) pts.length (sortRecBy (keyOf (depth % 2)) pts))) (depth + 1)
      have h3 := List.Perm.append h1 h2
      rw [List.take_append_drop] at h3
      exact List.Perm.trans h3 (perm_sortRecBy _ pts)

/-- Unfolding equation for kdBuildAux in the leaf case, guarded by the
    stopping condition so that rewriting stays controlled. -/
theorem kdBuildAux_succ_leaf {fuel : ℕ} {pts : List Rec} {depth : ℕ}
    (h : depth = 20 ∨ pts.length < 2) :
    kdBuildAux (fuel + 1) pts depth = .leaf pts := by
  rw [kdBuildAux, if_pos h]

/-- Unfolding equation for kdBuildAux in the splitting case, guarded by the
    negated stopping condition so that rewriting stays controlled. -/
theorem kdBuildAux_succ_node {fuel : ℕ} {pts : List Rec} {depth : ℕ}
    (h : ¬(depth = 20 ∨ pts.length < 2)) :
    kdBuildAux (fuel + 1) pts depth =
      .node (depth % 2)
        (kdPartitionValue (depth % 2) pts.length (sortRecBy (keyOf (depth % 2)) pts))
        (kdBuildAux fuel ((sortRecBy (keyOf (depth % 2)) pts).take
          (kdSplitIndex (depth % 2) pts.length (sortRecBy (keyOf (depth % 2)) pts))) (depth + 1))
        (kdBuildAux fuel ((sortRecBy (keyOf (depth % 2)) pts).drop
          (kdSplitIndex (depth % 2) pts.length (sortRecBy (keyOf (depth % 2)) pts))) (depth + 1)) := by
  rw [kdBuildAux, if_neg h]

/-- Two records sharing the longitude 0, used to exercise the duplicate
    median case of the KDTree build. -/
def recA : Rec := ⟨0, 10, none, none⟩

/-- Second record with the same longitude as recA. -/
def recB : Rec := ⟨0, 20, none, none⟩

/-- Concrete evaluation of the KDTree build on two records sharing a
    longitude: the root splits on the longitude axis with the duplicated
    partition value 0, the split index is advanced past the duplicate run to
    2, the right subtree is the empty leaf, and the left subtree re-splits
    on latitude. -/
theorem kdBuild_recAB :
    kdBuild [recA, recB] =
      KD.node 0 0 (KD.node 1 10 (.leaf [recA]) (.leaf [recB])) (.leaf []) := by
  unfold kdBuild
  norm_num [kdBuildAux_succ_leaf, kdBuildAux_succ_node, kdSplitIndex, kdPartitionValue,
    sortRecBy, insertRecBy, keyOf, recA, recB, List.takeWhile_cons, decide_eq_true_eq]

/-- C4 (amended): whenever a KDTree node splits during construction, the
    left subtree is non-empty (the split index is at least half the point
    count, hence at least one); the right subtree however CAN be empty when
    the run of duplicates of the median value extends to the end of the
    sorted list, because the split index is advanced past the whole run (see
    the counterexample).  The left subtree is in particular never empty when
    the right one is non-empty. -/
theorem kd_split_left_nonempty (fuel : ℕ) (pts : List Rec) (depth : ℕ)
    (a : ℕ) (v : ℚ) (l r : KD) (h : kdBuildAux fuel pts depth = .node a v l r) :
    kdStored l ≠ [] := by
  match fuel, h with
  | fuel + 1, h =>
    unfold kdBuildAux at h
    split at h
    · exact KD.noConfusion h
    · rename_i hguard
      push_neg at hguard
      injection h with ha hv hl hr
      subst hl
      intro hnil
      have hperm := kdStored_build_perm fuel
        ((sortRecBy (keyOf (depth % 2)) pts).take
          (kdSplitIndex (depth % 2) pts.length (sortRecBy (keyOf (depth % 2)) pts)))
        (depth + 1)
      rw [hnil] at hperm
      have htake := (List.Perm.nil_eq hperm).symm
      have hlen : ((sortRecBy (keyOf (depth % 2)) pts).take
          (kdSplitIndex (depth % 2) pts.length (sortRecBy (keyOf (depth % 2)) pts))).length = 0 := by
        rw [htake]
        rfl
      rw [List.length_take] at hlen
      have hslen : (sortRecBy (keyOf (depth % 2)) pts).length = pts.length :=
        List.Perm.length_eq (perm_sortRecBy _ _)
      have hsi : 1 ≤ kdSplitIndex (depth % 2) pts.length (sortRecBy (keyOf (depth % 2)) pts) := by
        unfold kdSplitIndex
        have h2 : 2 ≤ pts.length := hguard.2
        omega
      have h2 : 2 ≤ pts.length := hguard.2
      omega

/-- Witness for kd_split_left_nonempty: the build of two records with equal
    longitudes splits at the root with a non-empty left subtree. -/
theorem kd_split_left_nonempty_witness :
    kdStored (KD.node 1 10 (.leaf [recA]) (.leaf [recB])) ≠ [] :=
  kd_split_left_nonempty 21 [recA, recB] 0 0 0
    (KD.node 1 10 (.leaf [recA]) (.leaf [recB])) (.leaf []) kdBuild_recAB

/-- C4 counterexample: building a KDTree from two records with the same
    longitude splits the root on the longitude axis with the duplicated
    median value, and the right subtree is the empty leaf: duplicate median
    values DO produce an empty right subtree. -/
theorem kd_split_left_nonempty_counterexample :
    kdBuild [recA, recB] =
      KD.node 0 0 (KD.node 1 10 (.leaf [recA]) (.leaf [recB])) (.leaf []) ∧
      recA.lon = recB.lon :=
  ⟨kdBuild_recAB, by norm_num [recA, recB]⟩

/-- C5 (amended): KDTree.insert descends left exactly when the current-axis
    value of the record is strictly below the partition value and right
    otherwise, and its behaviour is decided by the points of the leaf it
    reaches: it returns false and leaves the tree unchanged iff the record
    is already present in THAT leaf (by Record equality), and otherwise
    appends the record there and returns true.  A record stored elsewhere in
    the tree does not prevent insertion (see the counterexample: a stored
    record whose axis value equals a partition value sits in the left
    subtree but insert descends right and duplicates it). -/
theorem kd_insert_descends (t : KD) (p : Rec) :
    ((kdInsert t p).2 = true ↔ ¬ inPts p (kdReach t p)) ∧
    (inPts p (kdReach t p) → kdInsert t p = (t, false)) ∧
    (¬ inPts p (kdReach t p) →
      List.Perm (kdStored (kdInsert t p).1) (kdStored t ++ [p])) := by
  induction t with
  | leaf pts =>
    by_cases hm : inPts p pts
    · refine ⟨?_, ?_, ?_⟩ <;> simp [kdInsert, kdReach, hm]
    · refine ⟨?_, ?_, ?_⟩ <;> simp [kdInsert, kdReach, kdStored, hm]
  | node a v l r ihl ihr =>
    by_cases hk : keyOf a p < v
    · obtain ⟨ih1, ih2, ih3⟩ := ihl
      refine ⟨?_, ?_, ?_⟩
      · simpa [kdInsert, kdReach, hk] using ih1
      · intro hm
        rw [kdReach, if_pos hk] at hm
        have h2 := ih2 hm
        simp only [kdInsert, if_pos hk, h2]
      · intro hm
        rw [kdReach, if_pos hk] at hm
        have h3 := ih3 hm
        simp only [kdInsert, if_pos hk, kdStored]
        rw [List.append_assoc]
        refine List.Perm.trans (List.Perm.append h3 (List.Perm.refl (kdStored r))) ?_
        rw [List.append_assoc]
        exact List.Perm.append_left _ List.perm_append_comm
    · obtain ⟨ih1, ih2, ih3⟩ := ihr
      refine ⟨?_, ?_, ?_⟩
      · simpa [kdInsert, kdReach, hk] using ih1
      · intro hm
        rw [kdReach, if_neg hk] at hm
        have h2 := ih2 hm
        simp only [kdInsert, if_neg hk, h2]
      · intro hm
        rw [kdReach, if_neg hk] at hm
        have h3 := ih3 hm
        simp only [kdInsert, if_neg hk, kdStored]
        rw [List.append_assoc]
        exact List.Perm.append_left _ h3

/-- Witness for kd_insert_descends: inserting a record already present in
    the reached leaf returns false and leaves the tree unchanged. -/
theorem kd_insert_descends_witness :
    kdInsert (KD.leaf [recA]) recA = (KD.leaf [recA], false) :=
  (kd_insert_descends (KD.leaf [recA]) recA).2.1
    (by simp [kdReach, inPts, recEqv, recA, uidTruthy])

/-- C5 counterexample: in the tree built from two records sharing longitude
    0, both records live in the left subtree of the root (whose partition
    value is 0), so inserting recA again descends right (0 < 0 is false)
    into the empty leaf and appends a duplicate, returning true although
    recA is already stored in the tree. -/
theorem kd_insert_descends_counterexample :
    inPts recA (kdStored (kdBuild [recA, recB])) ∧
      (kdInsert (kdBuild [recA, recB]) recA).2 = true ∧
      kdStored (kdInsert (kdBuild [recA, recB]) recA).1 = [recA, recB, recA] := by
  rw [kdBuild_recAB]
  refine ⟨?_, ?_, ?_⟩ <;>
    norm_num [kdInsert, kdStored, inPts, recEqv, uidTruthy, keyOf, recA, recB]

/-- The shadow query record Record(point.lon + 360, point.lat) or
    Record(point.lon - 360, point.lat) built by KDTree.query for the
    antimeridian two-pass search: the Record constructor is called with
    fix_lon left at its default True, so it wraps the longitude back into
    [-180, 180) (the latitude check cannot fire, the latitude being that of
    the query record). -/
def kdShadow (p : Rec) : Rec :=
  if p.lon < 0 then ⟨wrap360 (p.lon + 360), p.lat, none, none⟩
  else ⟨wrap360 (p.lon - 360), p.lat, none, none⟩

/-- C3: the shadow query record is NOT at longitude lon + 360 or lon - 360:
    the Record constructor wraps the shifted longitude straight back, so for
    canonical query longitudes the shadow coincides with the original query
    record and the two intended antimeridian passes of KDTree.query search
    with identical inputs.  Evaluated at the spec scenario inputs (-6, 35)
    and (175, 44). -/
theorem kd_shadow_query_noop :
    kdShadow ⟨-6, 35, none, none⟩ = ⟨-6, 35, none, none⟩ ∧
      kdShadow ⟨175, 44, none, none⟩ = ⟨175, 44, none, none⟩ ∧
      (⟨-6, 35, none, none⟩ : Rec).lon + 360 = 354 ∧ (354 : ℚ) ≠ -6 := by
  refine ⟨?_, ?_, by norm_num, by norm_num⟩ <;> norm_num [kdShadow, wrap360, pymod]

/-- Modelled from the spec: conversion of degrees to radians used by the
    haversine formula. -/
noncomputable def rad (x : ℚ) : ℝ := (x : ℝ) * Real.pi / 180

/-- Modelled from the spec: haversine great-circle distance in kilometres
    between two degree lon/lat points, with Earth radius 6371 km (the
    distance_metrics module is not part of the provided sources). -/
noncomputable def haversine (lon1 lat1 lon2 lat2 : ℚ) : ℝ :=
  2 * 6371 * Real.arcsin (Real.sqrt
    (Real.sin (rad ((lat2 - lat1) / 2)) ^ 2 +
      Real.cos (rad lat1) * Real.cos (rad lat2) * Real.sin (rad ((lon2 - lon1) / 2)) ^ 2))

theorem hav_nonneg (lon1 lat1 lon2 lat2 : ℚ) : 0 ≤ haversine lon1 lat1 lon2 lat2 := by
  unfold haversine
  have h := Real.arcsin_nonneg.mpr (Real.sqrt_nonneg
    (Real.sin (rad ((lat2 - lat1) / 2)) ^ 2 +
      Real.cos (rad lat1) * Real.cos (rad lat2) * Real.sin (rad ((lon2 - lon1) / 2)) ^ 2))
  linarith

theorem hav_self (lon lat : ℚ) : haversine lon lat lon lat = 0 := by
  unfold haversine rad
  push_cast
  ring_nf
  simp

/-- Distance from the wrapped centre (-180, 1/2) to the corner (180, 1): the
    longitude half-angle is pi, whose sine vanishes, leaving the latitude
    half-angle pi/720. -/
theorem hav_eval_corner_n : haversine (-180) (1/2) 180 1 = 6371 * Real.pi / 360 := by
  unfold haversine rad
  rw [show ((1:ℚ) - 1/2) / 2 = 1/4 by norm_num, show ((180:ℚ) - -180) / 2 = 180 by norm_num]
  push_cast
  rw [show ((180:ℝ)) * Real.pi / 180 = Real.pi by ring, Real.sin_pi]
  rw [show ((1:ℝ) / 4) * Real.pi / 180 = Real.pi / 720 by ring]
  have hpi := Real.pi_pos
  have hs : 0 ≤ Real.sin (Real.pi / 720) :=
    Real.sin_nonneg_of_nonneg_of_le_pi (by positivity) (by linarith)
  rw [zero_pow (by norm_num), mul_zero, add_zero, Real.sqrt_sq_eq_abs,
    abs_of_nonneg hs, Real.arcsin_sin (by linarith) (by linarith)]
  ring

/-- Distance from the wrapped centre (-180, 1/2) to the corner (180, 0). -/
theorem hav_eval_corner_s : haversine (-180) (1/2) 180 0 = 6371 * Real.pi / 360 := by
  unfold haversine rad
  rw [show ((0:ℚ) - 1/2) / 2 = -(1/4) by norm_num, show ((180:ℚ) - -180) / 2 = 180 by norm_num]
  push_cast
  rw [show ((180:ℝ)) * Real.pi / 180 = Real.pi by ring, Real.sin_pi]
  rw [show (-((1:ℝ) / 4)) * Real.pi / 180 = -(Real.pi / 720) by ring, Real.sin_neg, neg_sq]
  have hpi := Real.pi_pos
  have hs : 0 ≤ Real.sin (Real.pi / 720) :=
    Real.sin_nonneg_of_nonneg_of_le_pi (by positivity) (by linarith)
  rw [zero_pow (by norm_num), mul_zero, add_zero, Real.sqrt_sq_eq_abs,
    abs_of_nonneg hs, Real.arcsin_sin (by linarith) (by linarith)]
  ring

/-- Distance from the wrapped centre (-180, 1/2) to the contained point
    (0, 1/2): the latitude term vanishes and the longitude half-angle is
    pi/2, leaving arcsin of cos(pi/360). -/
theorem hav_eval_inside : haversine (-180) (1/2) 0 (1/2) = 6371 * (Real.pi - Real.pi / 180) := by
  unfold haversine rad
  rw [show ((1:ℚ)/2 - 1/2) / 2 = 0 by norm_num, show ((0:ℚ) - -180) / 2 = 90 by norm_num]
  push_cast
  rw [show ((0:ℝ)) * Real.pi / 180 = 0 by ring, Real.sin_zero,
    show ((90:ℝ)) * Real.pi / 180 = Real.pi / 2 by ring, Real.sin_pi_div_two]
  have hpi := Real.pi_pos
  have hc : 0 ≤ Real.cos (1 / 2 * Real.pi / 180) := by
    apply Real.cos_nonneg_of_mem_Icc
    constructor
    · linarith
    · linarith
  rw [zero_pow (by norm_num), zero_add, one_pow, mul_one, show
    Real.cos (1 / 2 * Real.pi / 180) * Real.cos (1 / 2 * Real.pi / 180) =
      Real.cos (1 / 2 * Real.pi / 180) ^ 2 by ring, Real.sqrt_sq_eq_abs,
    abs_of_nonneg hc]
  rw [show (1:ℝ) / 2 * Real.pi / 180 = Real.pi / 360 by ring,
    ← Real.sin_pi_div_two_sub, Real.arcsin_sin (by linarith) (by linarith)]
  ring

namespace Rect

/-- Rectangle.edge_dist (identical in shape.py and quadtree.py): the larger
    of the centre-to-east-north and centre-to-east-south haversine distances,
    also compared against the centre-to-(east, 0) distance when the rectangle
    crosses the equator. -/
noncomputable def edgeDist (r : Rect) : ℝ :=
  if r.north * r.south < 0 then
    max (max (haversine r.centreLon r.centreLat r.east r.north)
        (haversine r.centreLon r.centreLat r.east r.south))
      (haversine r.centreLon r.centreLat r.east 0)
  else
    max (haversine r.centreLon r.centreLat r.east r.north)
      (haversine r.centreLon r.centreLat r.east r.south)

/-- Rectangle.nearby (identical in shape.py and quadtree.py): the haversine
    distance from the rectangle centre to the point, compared against
    dist + edge_dist. -/
def nearby (r : Rect) (p : Rec) (d : ℝ) : Prop :=
  haversine r.centreLon r.centreLat p.lon p.lat ≤ d + r.edgeDist

theorem edgeDist_nonneg (r : Rect) : 0 ≤ r.edgeDist := by
  unfold edgeDist
  split
  · exact le_trans (hav_nonneg _ _ _ _) (le_trans (le_max_left _ _) (le_max_left _ _))
  · exact le_trans (hav_nonneg _ _ _ _) (le_max_left _ _)

end Rect

theorem rect180_centreLon : (⟨180, 180, 0, 1⟩ : Rect).centreLon = -180 := by
  norm_num [Rect.centreLon, Rect.lonRange, wrap360, pymod]

theorem rect180_centreLat : (⟨180, 180, 0, 1⟩ : Rect).centreLat = 1/2 := by
  norm_num [Rect.centreLat, Rect.latRange]

theorem rect180_edgeDist : (⟨180, 180, 0, 1⟩ : Rect).edgeDist = 6371 * Real.pi / 360 := by
  unfold Rect.edgeDist
  rw [if_neg (by norm_num), rect180_centreLon, rect180_centreLat]
  show max (haversine (-180) (1/2) 180 1) (haversine (-180) (1/2) 180 0) = _
  rw [hav_eval_corner_n, hav_eval_corner_s, max_self]

theorem rect180_contains : (⟨180, 180, 0, 1⟩ : Rect).contains ⟨0, 1/2, none, none⟩ := by
  norm_num [Rect.contains, Rect.tns, Rect.tew, tewCore, Rect.centreLon, Rect.lonRange,
    wrap360, pymod]

theorem rect180_not_nearby : ¬ (⟨180, 180, 0, 1⟩ : Rect).nearby ⟨0, 1/2, none, none⟩ 0 := by
  intro h
  unfold Rect.nearby at h
  rw [rect180_centreLon, rect180_centreLat, rect180_edgeDist] at h
  have h2 : haversine (-180) (1/2) 0 (1/2) ≤ 0 + 6371 * Real.pi / 360 := h
  rw [hav_eval_inside] at h2
  have hpi := Real.pi_pos
  nlinarith

/-- C2: Rectangle.nearby(point, dist) holds exactly when the haversine
    distance from the rectangle centre to the point is at most
    dist + edge_dist, but it is NOT free of false negatives: there is a
    rectangle, a point p, a record q contained in the rectangle with
    haversine(p, q) <= d, for which nearby(p, d) is false (the degenerate
    west = east = 180 rectangle, whose computed centre longitude wraps to
    -180, half the globe away from the contained record). -/
theorem rect_nearby_conservative :
    (∀ (r : Rect) (p : Rec) (d : ℝ),
      r.nearby p d ↔ haversine r.centreLon r.centreLat p.lon p.lat ≤ d + r.edgeDist) ∧
    (∃ (r : Rect) (p q : Rec) (d : ℝ), 0 ≤ d ∧ r.contains q ∧
      haversine p.lon p.lat q.lon q.lat ≤ d ∧ ¬ r.nearby p d) := by
  constructor
  · intro r p d
    exact Iff.rfl
  · exact ⟨⟨180, 180, 0, 1⟩, ⟨0, 1/2, none, none⟩, ⟨0, 1/2, none, none⟩, 0, le_refl 0,
      rect180_contains, le_of_eq (hav_self 0 (1/2)), rect180_not_nearby⟩

/-- C2 counterexample: the constructible rectangle with west = east = 180
    contains the record at (0, 1/2); the query point placed exactly on that
    record is at haversine distance 0 <= 0 from it, yet nearby with dist 0 is
    false: the centre-to-point distance 6371(pi - pi/180) km exceeds
    edge_dist = 6371 pi/360 km, so the pruning predicate has false
    negatives. -/
theorem rect_nearby_conservative_counterexample :
    (⟨180, 180, 0, 1⟩ : Rect).contains ⟨0, 1/2, none, none⟩ ∧
      haversine 0 (1/2) 0 (1/2) ≤ 0 ∧
      ¬ (⟨180, 180, 0, 1⟩ : Rect).nearby ⟨0, 1/2, none, none⟩ 0 :=
  ⟨rect180_contains, le_of_eq (hav_self 0 (1/2)), rect180_not_nearby⟩

namespace STRect

/-- SpaceTimeRectangle.edge_dist (identical in shape.py and octtree.py). -/
noncomputable def edgeDist (r : STRect) : ℝ :=
  if r.north * r.south < 0 then
    max (max (haversine r.centreLon r.centreLat r.east r.north)
        (haversine r.centreLon r.centreLat r.east r.south))
      (haversine r.centreLon r.centreLat r.east 0)
  else
    max (haversine r.centreLon r.centreLat r.east r.north)
      (haversine r.centreLon r.centreLat r.east r.south)

/-- SpaceTimeRectangle.nearby (identical in shape.py and octtree.py): false
    when the point datetime padded by t_dist misses the time interval,
    otherwise the centre-to-point haversine test against dist + edge_dist. -/
def nearby (r : STRect) (p : STRec) (d : ℝ) (td : ℚ) : Prop :=
  if p.datetime - td > r.tEnd ∨ p.datetime + td < r.tStart then False
  else haversine r.centreLon r.centreLat p.lon p.lat ≤ d + r.edgeDist

theorem st_edgeDist_nonneg (r : STRect) : 0 ≤ r.edgeDist := by
  unfold edgeDist
  split
  · exact le_trans (hav_nonneg _ _ _ _) (le_trans (le_max_left _ _) (le_max_left _ _))
  · exact le_trans (hav_nonneg _ _ _ _) (le_max_left _ _)

end STRect

/-- The OctTree class: a node either has no children (divided = False) or
    exactly the eight named children (divided = True), ordered back before
    forward as in the insert and nearby_points cascades. -/
inductive OT where
  | leaf (boundary : STRect) (capacity depth : ℕ) (maxDepth : Option ℕ) (points : List STRec)
  | div (boundary : STRect) (capacity depth : ℕ) (maxDepth : Option ℕ) (points : List STRec)
      (nwb neb swb seb nwf nef swf sef : OT)
deriving DecidableEq

namespace OT

def boundary : OT → STRect
  | .leaf b _ _ _ _ => b
  | .div b _ _ _ _ _ _ _ _ _ _ _ _ => b

def capacity : OT → ℕ
  | .leaf _ c _ _ _ => c
  | .div _ c _ _ _ _ _ _ _ _ _ _ _ => c

def depth : OT → ℕ
  | .leaf _ _ d _ _ => d
  | .div _ _ d _ _ _ _ _ _ _ _ _ _ => d

def maxDepth : OT → Option ℕ
  | .leaf _ _ _ m _ => m
  | .div _ _ _ m _ _ _ _ _ _ _ _ _ => m

def points : OT → List STRec
  | .leaf _ _ _ _ pts => pts
  | .div _ _ _ _ pts _ _ _ _ _ _ _ _ => pts

/-- Append a record to the node list (self.points.append(point)). -/
def push (p : STRec) : OT → OT
  | .leaf b c d m pts => .leaf b c d m (pts ++ [p])
  | .div b c d m pts nwb neb swb seb nwf nef swf sef =>
    .div b c d m (pts ++ [p]) nwb neb swb seb nwf nef swf sef

/-- The test `self.max_depth and self.depth == self.max_depth` of
    OctTree.insert. -/
def atMaxDepth (t : OT) : Prop :=
  match t.maxDepth with
  | none => False
  | some m => ¬m = 0 ∧ t.depth = m

instance (t : OT) : Decidable t.atMaxDepth := by
  unfold atMaxDepth; exact match t.maxDepth with
    | none => by infer_instance
    | some m => by infer_instance

/-- The NWback, NEback, SWback, SEback, NWfwd, NEfwd, SWfwd, SEfwd insertion
    cascade of OctTree.insert on a divided node; a failed child insertion
    keeps the child returned by the call, as the Python mutation does. -/
def insertInto (ins : OT → STRec → OT × Bool) (b : STRect) (c d : ℕ) (m : Option ℕ)
    (pts : List STRec) (nwb neb swb seb nwf nef swf sef : OT) (p : STRec) : OT × Bool :=
  if (ins nwb p).2 then
    (.div b c d m pts (ins nwb p).1 neb swb seb nwf nef swf sef, true)
  else if (ins neb p).2 then
    (.div b c d m pts (ins nwb p).1 (ins neb p).1 swb seb nwf nef swf sef, true)
  else if (ins swb p).2 then
    (.div b c d m pts (ins nwb p).1 (ins neb p).1 (ins swb p).1 seb nwf nef swf sef, true)
  else if (ins seb p).2 then
    (.div b c d m pts (ins nwb p).1 (ins neb p).1 (ins swb p).1 (ins seb p).1
      nwf nef swf sef, true)
  else if (ins nwf p).2 then
    (.div b c d m pts (ins nwb p).1 (ins neb p).1 (ins swb p).1 (ins seb p).1
      (ins nwf p).1 nef swf sef, true)
  else if (ins nef p).2 then
    (.div b c d m pts (ins nwb p).1 (ins neb p).1 (ins swb p).1 (ins seb p).1
      (ins nwf p).1 (ins nef p).1 swf sef, true)
  else if (ins swf p).2 then
    (.div b c d m pts (ins nwb p).1 (ins neb p).1 (ins swb p).1 (ins seb p).1
      (ins nwf p).1 (ins nef p).1 (ins swf p).1 sef, true)
  else if (ins sef p).2 then
    (.div b c d m pts (ins nwb p).1 (ins neb p).1 (ins swb p).1 (ins seb p).1
      (ins nwf p).1 (ins nef p).1 (ins swf p).1 (ins sef p).1, true)
  else
    (.div b c d m pts (ins nwb p).1 (ins neb p).1 (ins swb p).1 (ins seb p).1
      (ins nwf p).1 (ins nef p).1 (ins swf p).1 (ins sef p).1, false)

/-- OctTree.insert, fuel-based like QuadTree.insert; divide builds the eight
    children with the STRect child boundaries and depth + 1. -/
def insert : ℕ → OT → STRec → OT × Bool
  | 0, t, _ => (t, false)
  | fuel + 1, t, p =>
    if ¬ t.boundary.contains p then (t, false)
    else if t.atMaxDepth then (t.push p, true)
    else if t.points.length < t.capacity then (t.push p, true)
    else
      match t with
      | .leaf b c d m pts =>
        insertInto (insert fuel) b c d m pts
          (.leaf b.childNWb c (d+1) m []) (.leaf b.childNEb c (d+1) m [])
          (.leaf b.childSWb c (d+1) m []) (.leaf b.childSEb c (d+1) m [])
          (.leaf b.childNWf c (d+1) m []) (.leaf b.childNEf c (d+1) m [])
          (.leaf b.childSWf c (d+1) m []) (.leaf b.childSEf c (d+1) m []) p
      | .div b c d m pts nwb neb swb seb nwf nef swf sef =>
        insertInto (insert fuel) b c d m pts nwb neb swb seb nwf nef swf sef p

/-- All records stored in the node and its descendants. -/
def stored : OT → List STRec
  | .leaf _ _ _ _ pts => pts
  | .div _ _ _ _ pts nwb neb swb seb nwf nef swf sef =>
    pts ++ (nwb.stored ++ (neb.stored ++ (swb.stored ++ (seb.stored ++
      (nwf.stored ++ (nef.stored ++ (swf.stored ++ sef.stored)))))))

end OT

/-- The for-loop of OctTree.nearby_points: keep the records of a node list
    whose haversine distance to the query point is at most dist and whose
    datetime lies within t_dist of the query datetime.  The haversine
    comparison is a real-number predicate, so the branch is classical. -/
noncomputable def nearFilter (p : STRec) (d : ℝ) (td : ℚ) : List STRec → List STRec
  | [] => []
  | q :: rest =>
    @ite _ (haversine p.lon p.lat q.lon q.lat ≤ d ∧
        q.datetime ≤ p.datetime + td ∧ p.datetime - td ≤ q.datetime)
      (Classical.propDecidable _)
      (q :: nearFilter p d td rest) (nearFilter p d td rest)

theorem mem_nearFilter {p : STRec} {d : ℝ} {td : ℚ} :
    ∀ {l : List STRec} {q : STRec}, q ∈ nearFilter p d td l →
      q ∈ l ∧ haversine p.lon p.lat q.lon q.lat ≤ d ∧
        q.datetime ≤ p.datetime + td ∧ p.datetime - td ≤ q.datetime
  | [], q => by simp [nearFilter]
  | x :: rest, q => by
    unfold nearFilter
    split
    · rename_i hc
      intro hm
      rcases List.mem_cons.mp hm with rfl | hm
      · exact ⟨List.mem_cons_self _ _, hc⟩
      · have h := mem_nearFilter hm
        exact ⟨List.mem_cons_of_mem _ h.1, h.2⟩
    · intro hm
      have h := mem_nearFilter hm
      exact ⟨List.mem_cons_of_mem _ h.1, h.2⟩

namespace OT

/-- OctTree.nearby_points with its accumulator argument: prune when the
    boundary is not nearby, otherwise append the filtered node records and
    recurse through the eight children, back before forward. -/
noncomputable def nearbyPoints (p : STRec) (d : ℝ) (td : ℚ) : OT → List STRec → List STRec
  | .leaf b _ _ _ pts, acc =>
    @ite _ (¬ b.nearby p d td) (Classical.propDecidable _) acc (acc ++ nearFilter p d td pts)
  | .div b _ _ _ pts nwb neb swb seb nwf nef swf sef, acc =>
    @ite _ (¬ b.nearby p d td) (Classical.propDecidable _) acc
      (nearbyPoints p d td sef (nearbyPoints p d td swf (nearbyPoints p d td nef
        (nearbyPoints p d td nwf (nearbyPoints p d td seb (nearbyPoints p d td swb
          (nearbyPoints p d td neb (nearbyPoints p d td nwb
            (acc ++ nearFilter p d td pts)))))))))

end OT

/-- The result of nearby_points extends the accumulator with records that are
    stored in the tree and pass both the haversine and the datetime tests. -/
theorem nearbyPoints_spec (p : STRec) (d : ℝ) (td : ℚ) :
    ∀ (t : OT) (acc : List STRec),
      ∃ ext, OT.nearbyPoints p d td t acc = acc ++ ext ∧
        ∀ q ∈ ext, q ∈ t.stored ∧ haversine p.lon p.lat q.lon q.lat ≤ d ∧
          q.datetime ≤ p.datetime + td ∧ p.datetime - td ≤ q.datetime
  | .leaf b c dep m pts, acc => by
    unfold OT.nearbyPoints
    split
    · exact ⟨[], (List.append_nil acc).symm, by simp⟩
    · refine ⟨nearFilter p d td pts, rfl, ?_⟩
      intro q hq
      have h := mem_nearFilter hq
      exact ⟨h.1, h.2⟩
  | .div b c dep m pts nwb neb swb seb nwf nef swf sef, acc => by
    unfold OT.nearbyPoints
    split
    · exact ⟨[], (List.append_nil acc).symm, by simp⟩
    · obtain ⟨e1, he1, hp1⟩ := nearbyPoints_spec p d td nwb (acc ++ nearFilter p d td pts)
      obtain ⟨e2, he2, hp2⟩ := nearbyPoints_spec p d td neb
        (OT.nearbyPoints p d td nwb (acc ++ nearFilter p d td pts))
      obtain ⟨e3, he3, hp3⟩ := nearbyPoints_spec p d td swb
        (OT.nearbyPoints p d td neb
          (OT.nearbyPoints p d td nwb (acc ++ nearFilter p d td pts)))
      obtain ⟨e4, he4, hp4⟩ := nearbyPoints_spec p d td seb
        (OT.nearbyPoints p d td swb (OT.nearbyPoints p d td neb
          (OT.nearbyPoints p d td nwb (acc ++ nearFilter p d td pts))))
      obtain ⟨e5, he5, hp5⟩ := nearbyPoints_spec p d td nwf
        (OT.nearbyPoints p d td seb (OT.nearbyPoints p d td swb
          (OT.nearbyPoints p d td neb
            (OT.nearbyPoints p d td nwb (acc ++ nearFilter p d td pts)))))
      obtain ⟨e6, he6, hp6⟩ := nearbyPoints_spec p d td nef
        (OT.nearbyPoints p d td nwf (OT.nearbyPoints p d td seb
          (OT.nearbyPoints p d td swb (OT.nearbyPoints p d td neb
            (OT.nearbyPoints p d td nwb (acc ++ nearFilter p d td pts))))))
      obtain ⟨e7, he7, hp7⟩ := nearbyPoints_spec p d td swf
        (OT.nearbyPoints p d td nef (OT.nearbyPoints p d td nwf
          (OT.nearbyPoints p d td seb (OT.nearbyPoints p d td swb
            (OT.nearbyPoints p d td neb
              (OT.nearbyPoints p d td nwb (acc ++ nearFilter p d td pts)))))))
      obtain ⟨e8, he8, hp8⟩ := nearbyPoints_spec p d td sef
        (OT.nearbyPoints p d td swf (OT.nearbyPoints p d td nef
          (OT.nearbyPoints p d td nwf (OT.nearbyPoints p d td seb
            (OT.nearbyPoints p d td swb (OT.nearbyPoints p d td neb
              (OT.nearbyPoints p d td nwb (acc ++ nearFilter p d td pts))))))))
      refine ⟨nearFilter p d td pts ++
        (e1 ++ (e2 ++ (e3 ++ (e4 ++ (e5 ++ (e6 ++ (e7 ++ e8))))))), ?_, ?_⟩
      · rw [he8, he7, he6, he5, he4, he3, he2, he1]
        simp [List.append_assoc]
      · intro q hq
        simp only [List.mem_append] at hq
        have hstored : ∀ x : STRec,
            x ∈ pts ∨ x ∈ nwb.stored ∨ x ∈ neb.stored ∨ x ∈ swb.stored ∨
              x ∈ seb.stored ∨ x ∈ nwf.stored ∨ x ∈ nef.stored ∨ x ∈ swf.stored ∨
              x ∈ sef.stored →
            x ∈ (OT.div b c dep m pts nwb neb swb seb nwf nef swf sef).stored := by
          intro x hx
          simp only [OT.stored, List.mem_append]
          tauto
        rcases hq with hq | hq | hq | hq | hq | hq | hq | hq | hq
        · have h := mem_nearFilter hq
          exact ⟨hstored q (Or.inl h.1), h.2⟩
        · have h := hp1 q hq
          exact ⟨hstored q (Or.inr (Or.inl h.1)), h.2⟩
        · have h := hp2 q hq
          exact ⟨hstored q (Or.inr (Or.inr (Or.inl h.1))), h.2⟩
        · have h := hp3 q hq
          exact ⟨hstored q (Or.inr (Or.inr (Or.inr (Or.inl h.1)))), h.2⟩
        · have h := hp4 q hq
          exact ⟨hstored q (Or.inr (Or.inr (Or.inr (Or.inr (Or.inl h.1))))), h.2⟩
        · have h := hp5 q hq
          exact ⟨hstored q (Or.inr (Or.inr (Or.inr (Or.inr (Or.inr (Or.inl h.1)))))), h.2⟩
        · have h := hp6 q hq
          exact ⟨hstored q
            (Or.inr (Or.inr (Or.inr (Or.inr (Or.inr (Or.inr (Or.inl h.1))))))), h.2⟩
        · have h := hp7 q hq
          exact ⟨hstored q
            (Or.inr (Or.inr (Or.inr (Or.inr (Or.inr (Or.inr (Or.inr (Or.inl h.1)))))))),
            h.2⟩
        · have h := hp8 q hq
          exact ⟨hstored q
            (Or.inr (Or.inr (Or.inr (Or.inr (Or.inr (Or.inr (Or.inr (Or.inr h.1)))))))),
            h.2⟩

/-- C9 (amended): OctTree.nearby_points is sound: every returned record was
    either already in the accumulator or is stored in the tree, within
    haversine distance dist of the query point, and within t_dist of the
    query datetime.  The converse (completeness) FAILS because the pruning
    predicate boundary.nearby has false negatives (see the counterexample),
    and no exclude_self parameter exists in the code: a stored record equal
    to the query record is always returned when it passes the filters. -/
theorem oct_nearby_points_sound (t : OT) (p : STRec) (d : ℝ) (td : ℚ)
    (acc : List STRec) (q : STRec) (hm : q ∈ OT.nearbyPoints p d td t acc) :
    q ∈ acc ∨ (q ∈ t.stored ∧ haversine p.lon p.lat q.lon q.lat ≤ d ∧
      |q.datetime - p.datetime| ≤ td) := by
  obtain ⟨ext, heq, hp⟩ := nearbyPoints_spec p d td t acc
  rw [heq] at hm
  rcases List.mem_append.mp hm with hm | hm
  · exact Or.inl hm
  · have h := hp q hm
    refine Or.inr ⟨h.1, h.2.1, abs_sub_le_iff.mpr ⟨?_, ?_⟩⟩
    · linarith [h.2.2.1]
    · linarith [h.2.2.2]

/-- Query record used by the C9 witness: the centre of the witness
    boundary. -/
def recP : STRec := ⟨10, 4, 1, none⟩

/-- Boundary used by the C9 witness. -/
def bW : STRect := ⟨0, 20, 0, 8, 0, 2⟩

theorem bW_nearby : bW.nearby recP 0 0 := by
  unfold STRect.nearby
  rw [if_neg (by norm_num [bW, recP])]
  have h0 : haversine bW.centreLon bW.centreLat recP.lon recP.lat = 0 := by
    rw [show bW.centreLon = 10 from by
        norm_num [bW, STRect.centreLon, STRect.lonRange, wrap360, pymod],
      show bW.centreLat = 4 from by norm_num [bW, STRect.centreLat, STRect.latRange],
      show recP.lon = 10 from rfl, show recP.lat = 4 from rfl, hav_self]
  rw [h0]
  have h := STRect.st_edgeDist_nonneg bW
  linarith

theorem nearbyPoints_witness_eval :
    OT.nearbyPoints recP 0 0 (OT.leaf bW 3 0 none [recP]) [] = [recP] := by
  unfold OT.nearbyPoints
  rw [if_neg (not_not_intro bW_nearby)]
  unfold nearFilter
  rw [if_pos ⟨le_of_eq (hav_self recP.lon recP.lat), by simp, by simp⟩]
  simp [nearFilter]

/-- Witness for oct_nearby_points_sound: the tree holding only the query
    record itself returns that record, which is stored, at distance 0 and
    time gap 0. -/
theorem oct_nearby_points_sound_witness :
    recP ∈ ([] : List STRec) ∨ (recP ∈ (OT.leaf bW 3 0 none [recP]).stored ∧
      haversine recP.lon recP.lat recP.lon recP.lat ≤ 0 ∧
      |recP.datetime - recP.datetime| ≤ 0) :=
  oct_nearby_points_sound (OT.leaf bW 3 0 none [recP]) recP 0 0 [] recP
    (by rw [nearbyPoints_witness_eval]; exact List.mem_singleton.mpr rfl)

/-- Record stored in the C9 counterexample tree and used as its query. -/
def recQ : STRec := ⟨0, 1/2, 1, none⟩

/-- Degenerate boundary of the C9 counterexample tree: west = east = 180. -/
def bC : STRect := ⟨180, 180, 0, 1, 0, 2⟩

theorem bC_contains : bC.contains recQ := by
  norm_num [bC, recQ, STRect.contains, STRect.tns, STRect.tew, tewCore,
    STRect.centreLon, STRect.lonRange, wrap360, pymod]

theorem bC_not_nearby : ¬ bC.nearby recQ 0 0 := by
  unfold STRect.nearby
  rw [if_neg (by norm_num [bC, recQ])]
  intro h
  rw [show bC.centreLon = -180 from by
      norm_num [bC, STRect.centreLon, STRect.lonRange, wrap360, pymod],
    show bC.centreLat = 1/2 from by norm_num [bC, STRect.centreLat, STRect.latRange],
    show recQ.lon = 0 from rfl, show recQ.lat = 1/2 from rfl, hav_eval_inside] at h
  have hedge : bC.edgeDist = 6371 * Real.pi / 360 := by
    unfold STRect.edgeDist
    rw [if_neg (by norm_num [bC]),
      show bC.centreLon = -180 from by
        norm_num [bC, STRect.centreLon, STRect.lonRange, wrap360, pymod],
      show bC.centreLat = 1/2 from by norm_num [bC, STRect.centreLat, STRect.latRange]]
    show max (haversine (-180) (1/2) 180 1) (haversine (-180) (1/2) 180 0) = _
    rw [hav_eval_corner_n, hav_eval_corner_s, max_self]
  rw [hedge] at h
  have hpi := Real.pi_pos
  nlinarith

/-- C9 counterexample: the record at (0, 1/2, datetime 1) is genuinely
    insertable into an OctTree on the degenerate west = east = 180 boundary
    (insert stores it and returns true), it passes the exact haversine and
    datetime filters against itself, yet nearby_points with the record itself
    as the query returns the empty list: the boundary pruning predicate is a
    false negative, so nearby_points is not complete. -/
theorem oct_nearby_points_sound_counterexample :
    OT.insert 1 (OT.leaf bC 3 0 none []) recQ = (OT.leaf bC 3 0 none [recQ], true) ∧
      haversine recQ.lon recQ.lat recQ.lon recQ.lat ≤ 0 ∧
      |recQ.datetime - recQ.datetime| ≤ 0 ∧
      OT.nearbyPoints recQ 0 0 (OT.leaf bC 3 0 none [recQ]) [] = [] := by
  refine ⟨?_, le_of_eq (hav_self recQ.lon recQ.lat), by norm_num, ?_⟩
  · show OT.insert (0 + 1) (OT.leaf bC 3 0 none []) recQ = _
    unfold OT.insert
    simp only [OT.boundary, OT.atMaxDepth, OT.maxDepth, OT.points, OT.capacity]
    rw [if_neg (not_not_intro bC_contains), if_neg not_false, if_pos (by simp)]
    rfl
  · unfold OT.nearbyPoints
    rw [if_pos (bC_not_nearby)]

end GeoSpatialTools
